import Mathlib

set_option maxRecDepth 10000
set_option maxHeartbeats 1000000

/--
Shallow embedding of the closed queuing network simulator
(closed_queuing_network.py).  Simulation times and durations are rationals.
The two numpy random sources (library code, not part of the repository) are
modeled as abstract draw streams threaded through the run: a stream
svc of unit-exponential samples (the value returned by the k-th call to
np.random.exponential is mean_service_time times svc k, all samples are
nonnegative), and a stream rt of routing draws (np.random.choice over a
station row always returns a valid index, modeled as rt k taken modulo the
number of stations).  The heapq priority queue is modeled as a list with
push at the end and pop of a minimum-time element; heapq leaves the order
among equal-time events unspecified, and the model makes one deterministic
choice.  Out-of-range indexing, which raises in Python, is modeled with a
default element and never exercised by a theorem (all theorems carry the
bounds as hypotheses or invariants).  Division by zero, which raises in
Python, follows the Lean convention x / 0 = 0 and is likewise never
exercised.  The cosmetic station name string is omitted.
-/
inductive EventType where
  | arrival
  | departure
deriving DecidableEq

structure Event where
  time : ℚ
  event_type : EventType
  job_id : ℕ
  station_id : ℕ
deriving DecidableEq

structure Job where
  job_id : ℕ
  arrival_time : ℚ
  completion_time : ℚ
  station_visits : List (ℕ × ℚ × ℚ)
deriving DecidableEq

structure Station where
  station_id : ℕ
  num_servers : ℤ
  mean_service_time : ℚ
  queue : List ℕ
  servers_busy : ℤ
  total_arrivals : ℕ
  total_departures : ℕ
  total_queue_time : ℚ
  total_service_time : ℚ
  queue_length_sum : ℚ
  last_update_time : ℚ
deriving DecidableEq

/-- Station constructor (Station.__init__). -/
def mkStation (station_id : ℕ) (num_servers : ℤ) (mean_service_time : ℚ) : Station :=
  { station_id := station_id
    num_servers := num_servers
    mean_service_time := mean_service_time
    queue := []
    servers_busy := 0
    total_arrivals := 0
    total_departures := 0
    total_queue_time := 0
    total_service_time := 0
    queue_length_sum := 0
    last_update_time := 0 }

/-- Station.is_available. -/
def Station.is_available (st : Station) : Prop :=
  st.servers_busy < st.num_servers

instance (st : Station) : Decidable st.is_available :=
  inferInstanceAs (Decidable (st.servers_busy < st.num_servers))

/-- Station._update_queue_stats.  Note the source guard
if self.last_update_time > 0, under which the integral increment is
skipped; the assignment to last_update_time happens in both cases. -/
def Station.update_queue_stats (st : Station) (current_time : ℚ) : Station :=
  if 0 < st.last_update_time then
    { st with
      queue_length_sum :=
        st.queue_length_sum + (st.queue.length : ℚ) * (current_time - st.last_update_time)
      last_update_time := current_time }
  else
    { st with last_update_time := current_time }

/-- Station.add_to_queue. -/
def Station.add_to_queue (st : Station) (job_id : ℕ) (current_time : ℚ) : Station :=
  let st1 := st.update_queue_stats current_time
  { st1 with queue := st1.queue ++ [job_id], total_arrivals := st1.total_arrivals + 1 }

/-- Station.start_service: pop the queue head if a server is available. -/
def Station.start_service (st : Station) (current_time : ℚ) : Option ℕ × Station :=
  let st1 := st.update_queue_stats current_time
  match st1.queue with
  | [] => (none, st1)
  | j :: rest =>
      if st1.is_available then
        (some j, { st1 with queue := rest, servers_busy := st1.servers_busy + 1 })
      else (none, st1)

/-- Station.complete_service. -/
def Station.complete_service (st : Station) (current_time : ℚ) : Station :=
  let st1 := st.update_queue_stats current_time
  { st1 with servers_busy := st1.servers_busy - 1
             total_departures := st1.total_departures + 1 }

/-- Station.utilization property. -/
def Station.utilization (st : Station) : ℚ :=
  if st.total_service_time = 0 then 0
  else st.total_service_time / ((st.num_servers : ℚ) * st.last_update_time)

/-- Station.avg_queue_length property. -/
def Station.avg_queue_length (st : Station) : ℚ :=
  if st.last_update_time = 0 then 0
  else st.queue_length_sum / st.last_update_time

/-- The utilization formula asserted by the spec sentence of claim C2,
written from the words of the spec for comparison: total service time over
num_servers times the wall-clock elapsed since the last statistics reset
(clock T minus warmup W). -/
def claimUtilization (st : Station) (T W : ℚ) : ℚ :=
  st.total_service_time / ((st.num_servers : ℚ) * (T - W))

/-- The enqueue integral update asserted by the spec sentence of claim C6,
written from the words of the spec: the increment is applied for every
value of last_update_time, including 0. -/
def claimEnqueueSum (st : Station) (current_time : ℚ) : ℚ :=
  st.queue_length_sum + (st.queue.length : ℚ) * (current_time - st.last_update_time)

structure Net where
  num_jobs : ℤ
  routing_matrix : List (List ℚ)
  num_stations : ℕ
  stations : List Station
  jobs : List Job
  event_queue : List Event
  current_time : ℚ
  jobs_in_transit : Finset ℕ
  total_completions : ℕ
  warmup_completions : ℕ
  warmup_done : Bool
  svc_idx : ℕ
  route_idx : ℕ
deriving DecidableEq

/-- ClosedQueueingNetwork.__init__ (the seed only primes the numpy global
generator, which here lives outside the state as the two draw streams).
Note the source performs no validation of any argument. -/
def mkNetwork (num_jobs : ℤ) (routing_matrix : List (List ℚ)) : Net :=
  { num_jobs := num_jobs
    routing_matrix := routing_matrix
    num_stations := routing_matrix.length
    stations := []
    jobs := []
    event_queue := []
    current_time := 0
    jobs_in_transit := ∅
    total_completions := 0
    warmup_completions := 0
    warmup_done := false
    svc_idx := 0
    route_idx := 0 }

/-- ClosedQueueingNetwork.add_station (returns the new station id in the
source; the id equals the length before the append). -/
def Net.add_station (s : Net) (num_servers : ℤ) (mean_service_time : ℚ) : Net :=
  { s with stations := s.stations ++ [mkStation s.stations.length num_servers mean_service_time] }

/-- Construction sequence used by every driver: ClosedQueueingNetwork(...)
followed by one add_station call per parameter pair (num_servers, mean). -/
def buildNetwork (num_jobs : ℤ) (routing : List (List ℚ)) (params : List (ℤ × ℚ)) : Net :=
  params.foldl (fun s p => s.add_station p.1 p.2) (mkNetwork num_jobs routing)

def dJob : Job := { job_id := 0, arrival_time := 0, completion_time := 0, station_visits := [] }

def dStation : Station := mkStation 0 0 0

/-- ClosedQueueingNetwork.initialize_jobs: one Job record and one time-0
arrival event at the initial station per job id below num_jobs. -/
def Net.init_jobs (s : Net) (initial_station : ℕ) : Net :=
  { s with
    jobs := (List.range s.num_jobs.toNat).map (fun j => { dJob with job_id := j })
    event_queue := s.event_queue ++ (List.range s.num_jobs.toNat).map
      (fun j => { time := 0, event_type := EventType.arrival
                  job_id := j, station_id := initial_station }) }

/-- ClosedQueueingNetwork.schedule_event (heappush modeled as append). -/
def Net.schedule_event (s : Net) (time : ℚ) (event_type : EventType)
    (job_id station_id : ℕ) : Net :=
  { s with event_queue := s.event_queue ++
      [{ time := time, event_type := event_type, job_id := job_id, station_id := station_id }] }

/-- ClosedQueueingNetwork.get_next_station: one categorical draw over the
routing row, modeled as the next routing-stream value reduced modulo the
station count (np.random.choice always returns a valid index). -/
def Net.get_next_station (s : Net) (rt : ℕ → ℕ) : ℕ × Net :=
  (rt s.route_idx % s.num_stations, { s with route_idx := s.route_idx + 1 })

def Net.getSt (s : Net) (i : ℕ) : Station := s.stations.getD i dStation

def Net.setSt (s : Net) (i : ℕ) (st : Station) : Net :=
  { s with stations := s.stations.set i st }

def Net.modifyJob (s : Net) (j : ℕ) (f : Job → Job) : Net :=
  { s with jobs := s.jobs.set j (f (s.jobs.getD j dJob)) }

/-- ClosedQueueingNetwork.process_arrival.  The station visit record is
appended to the history of the arriving job (jobs at event.job_id, matching
the source, which appends to the variable job bound at the top), while the
departure is scheduled for job_to_serve. -/
def Net.process_arrival (s : Net) (svc : ℕ → ℚ) (e : Event) : Net :=
  let s1 : Net := { s with jobs_in_transit := s.jobs_in_transit.erase e.job_id }
  let arrival_time : ℚ := e.time
  let st1 : Station := (s1.getSt e.station_id).add_to_queue e.job_id s1.current_time
  let s2 : Net := s1.setSt e.station_id st1
  if st1.is_available then
    match st1.start_service s2.current_time with
    | (some job_to_serve, st2) =>
        let service_time : ℚ := st1.mean_service_time * svc s2.svc_idx
        let departure_time : ℚ := s2.current_time + service_time
        let s3 : Net := s2.setSt e.station_id
          { st2 with total_service_time := st2.total_service_time + service_time }
        let s4 : Net := { s3 with svc_idx := s3.svc_idx + 1 }
        let s5 : Net := s4.modifyJob e.job_id (fun jb =>
          { jb with station_visits :=
              jb.station_visits ++ [(e.station_id, arrival_time, departure_time)] })
        s5.schedule_event departure_time EventType.departure job_to_serve e.station_id
    | (none, st2) => s2.setSt e.station_id st2
  else s2

/-- ClosedQueueingNetwork.process_departure. -/
def Net.process_departure (s : Net) (svc : ℕ → ℚ) (rt : ℕ → ℕ) (e : Event) : Net :=
  let st1 : Station := (s.getSt e.station_id).complete_service s.current_time
  let s1 : Net := s.setSt e.station_id st1
  let s2 : Net := { s1 with total_completions := s1.total_completions + 1 }
  let s3 : Net :=
    if st1.queue ≠ [] then
      match st1.start_service s2.current_time with
      | (some job_to_serve, st2) =>
          let service_time : ℚ := st1.mean_service_time * svc s2.svc_idx
          let departure_time : ℚ := s2.current_time + service_time
          let sA : Net := s2.setSt e.station_id
            { st2 with total_service_time := st2.total_service_time + service_time }
          let sB : Net := { sA with svc_idx := sA.svc_idx + 1 }
          let sC : Net := sB.modifyJob job_to_serve (fun jb =>
            { jb with station_visits :=
                jb.station_visits ++ [(e.station_id, sB.current_time, departure_time)] })
          sC.schedule_event departure_time EventType.departure job_to_serve e.station_id
      | (none, st2) => s2.setSt e.station_id st2
    else s2
  let p := s3.get_next_station rt
  let s4 : Net := { p.2 with jobs_in_transit := insert e.job_id p.2.jobs_in_transit }
  s4.schedule_event s4.current_time EventType.arrival e.job_id p.1

/-- ClosedQueueingNetwork._reset_statistics. -/
def Net.reset_statistics (s : Net) : Net :=
  { s with
    stations := s.stations.map (fun st =>
      { st with total_arrivals := 0, total_departures := 0, total_queue_time := 0,
                total_service_time := 0, queue_length_sum := 0,
                last_update_time := s.current_time })
    total_completions := 0
    warmup_completions := 0 }

/-- heapq.heappop modeled on a list: remove one minimum-time event. -/
def popMin : List Event → Option (Event × List Event)
  | [] => none
  | e :: es =>
      match popMin es with
      | some (m, r) => if m.time < e.time then some (m, e :: r) else some (e, es)
      | none => some (e, es)

/-- ClosedQueueingNetwork.dispatch on the event kind inside run. -/
def Net.dispatch (s : Net) (svc : ℕ → ℚ) (rt : ℕ → ℕ) (e : Event) : Net :=
  match e.event_type with
  | EventType.arrival => s.process_arrival svc e
  | EventType.departure => s.process_departure svc rt e

/-- One iteration of the run loop after the pop: advance the clock to the
event time, perform the warmup check (reset statistics at the first popped
event whose time has reached the warmup threshold), then dispatch. -/
def stepPopped (svc : ℕ → ℚ) (rt : ℕ → ℕ) (warmup : ℚ) (s : Net)
    (e : Event) (rest : List Event) : Net :=
  let s1 : Net := { s with event_queue := rest, current_time := e.time }
  let s2 : Net :=
    if s1.warmup_done = false ∧ warmup ≤ s1.current_time then
      { s1.reset_statistics with warmup_done := true }
    else s1
  s2.dispatch svc rt e

/-- The while loop of ClosedQueueingNetwork.run, with explicit fuel (the
source loop is not structurally terminating for arbitrary draw streams).
Also returns the list of processed events in order. -/
def runAux (svc : ℕ → ℚ) (rt : ℕ → ℕ) (horizon warmup : ℚ) :
    ℕ → Net → Net × List Event
  | 0, s => (s, [])
  | Nat.succ n, s =>
      if s.event_queue ≠ [] ∧ s.current_time < horizon then
        match popMin s.event_queue with
        | none => (s, [])
        | some (e, rest) =>
            let r := runAux svc rt horizon warmup n (stepPopped svc rt warmup s e rest)
            (r.1, e :: r.2)
      else (s, [])

/-- ClosedQueueingNetwork.run: the loop starts with the warmup flag down. -/
def Net.run (s : Net) (svc : ℕ → ℚ) (rt : ℕ → ℕ) (horizon warmup : ℚ)
    (fuel : ℕ) : Net × List Event :=
  runAux svc rt horizon warmup fuel { s with warmup_done := false }

/-- One guarded iteration of the loop, for stating step invariants. -/
def loopStep (svc : ℕ → ℚ) (rt : ℕ → ℕ) (horizon warmup : ℚ) (s : Net) : Net :=
  if s.event_queue ≠ [] ∧ s.current_time < horizon then
    match popMin s.event_queue with
    | none => s
    | some (e, rest) => stepPopped svc rt warmup s e rest
  else s

/-- Work in process: jobs occupying servers or queues, plus jobs in transit. -/
def wip (s : Net) : ℤ :=
  (∑ i in Finset.range s.stations.length,
    ((s.getSt i).servers_busy + ((s.getSt i).queue.length : ℤ)))
  + (s.jobs_in_transit.card : ℤ)

/-- Number of pending arrival events for job j. -/
def cntArr (q : List Event) (j : ℕ) : ℕ :=
  q.countP (fun e => decide (e.event_type = EventType.arrival ∧ e.job_id = j))

/-- Number of pending departure events for job j. -/
def cntDep (q : List Event) (j : ℕ) : ℕ :=
  q.countP (fun e => decide (e.event_type = EventType.departure ∧ e.job_id = j))

/-- Number of pending departure events at station i. -/
def cntDepAt (q : List Event) (i : ℕ) : ℕ :=
  q.countP (fun e => decide (e.event_type = EventType.departure ∧ e.station_id = i))

/-- Number of occurrences of job j across the queues of all stations. -/
def qCount (s : Net) (j : ℕ) : ℕ :=
  ∑ i in Finset.range s.stations.length, (s.getSt i).queue.count j

/-- The reachable-state invariant of the engine.  Each live job holds
exactly one token: a pending arrival (it is in transit, or still a pending
initial arrival), a pending departure (it is occupying a server), or one
queue slot.  Busy-server counts agree with pending departures per station,
all ids and station indices are in range, pending arrivals for jobs not in
transit are left over from initialization (time 0), and no pending event
lies in the past. -/
structure SimInv (s : Net) : Prop where
  st_len : s.num_stations = s.stations.length
  st_pos : 0 < s.stations.length
  mean_nonneg : ∀ i, 0 ≤ (s.getSt i).mean_service_time
  ev_station : ∀ e ∈ s.event_queue, e.station_id < s.stations.length
  ev_job : ∀ e ∈ s.event_queue, e.job_id < s.num_jobs.toNat
  q_job : ∀ i, ∀ j ∈ (s.getSt i).queue, j < s.num_jobs.toNat
  transit_job : ∀ j ∈ s.jobs_in_transit, j < s.num_jobs.toNat
  busy_eq : ∀ i < s.stations.length,
    (s.getSt i).servers_busy = (cntDepAt s.event_queue i : ℤ)
  token : ∀ j < s.num_jobs.toNat,
    cntArr s.event_queue j + cntDep s.event_queue j + qCount s j = 1
  transit_arr : ∀ j ∈ s.jobs_in_transit, cntArr s.event_queue j = 1
  fresh_time : ∀ e ∈ s.event_queue, e.event_type = EventType.arrival →
    e.job_id ∉ s.jobs_in_transit → e.time ≤ 0
  time_ge : ∀ e ∈ s.event_queue, s.current_time ≤ e.time

/-- Invariant of the intermediate state inside one run step, after the
popped event e has been removed from the queue and the clock advanced to
its time, but before e is dispatched.  It is the reachable-state invariant
of the pre-pop state rewritten so that the token and busy-server counts of
the popped event appear explicitly. -/
structure MidInv (m : Net) (e : Event) : Prop where
  st_len : m.num_stations = m.stations.length
  st_pos : 0 < m.stations.length
  mean_nonneg : ∀ i, 0 ≤ (m.getSt i).mean_service_time
  ev_station : ∀ ev ∈ m.event_queue, ev.station_id < m.stations.length
  ev_job : ∀ ev ∈ m.event_queue, ev.job_id < m.num_jobs.toNat
  q_job : ∀ i, ∀ j ∈ (m.getSt i).queue, j < m.num_jobs.toNat
  transit_job : ∀ j ∈ m.jobs_in_transit, j < m.num_jobs.toNat
  e_station : e.station_id < m.stations.length
  e_job : e.job_id < m.num_jobs.toNat
  busy_eq : ∀ i < m.stations.length, (m.getSt i).servers_busy =
    (cntDepAt m.event_queue i : ℤ) +
      (if e.event_type = EventType.departure ∧ e.station_id = i then 1 else 0)
  token : ∀ j < m.num_jobs.toNat,
    (cntArr m.event_queue j + cntDep m.event_queue j + qCount m j)
      + (if e.job_id = j then 1 else 0) = 1
  transit_arr : ∀ j ∈ m.jobs_in_transit,
    cntArr m.event_queue j +
      (if e.event_type = EventType.arrival ∧ e.job_id = j then 1 else 0) = 1
  fresh_time : ∀ ev ∈ m.event_queue, ev.event_type = EventType.arrival →
    ev.job_id ∉ m.jobs_in_transit → ev.time ≤ 0
  e_fresh : e.event_type = EventType.arrival → e.job_id ∉ m.jobs_in_transit → e.time ≤ 0
  time_ge : ∀ ev ∈ m.event_queue, m.current_time ≤ ev.time
  e_time : m.current_time = e.time

/-- The per-station occupancy invariant of claim C9: servers_busy never
exceeds num_servers, and a station with a waiting queue has every server
busy. -/
def stationInv (st : Station) : Prop :=
  st.servers_busy ≤ st.num_servers ∧ (st.queue ≠ [] → st.servers_busy = st.num_servers)

instance (st : Station) : Decidable (stationInv st) := by
  unfold stationInv
  infer_instance

/-- Result state of process_arrival when no service starts (the station was
not available after the append). -/
def arrNoServe (s : Net) (e : Event) : Net :=
  { s with
    jobs_in_transit := s.jobs_in_transit.erase e.job_id
    stations := s.stations.set e.station_id
      ((s.getSt e.station_id).add_to_queue e.job_id s.current_time) }

/-- Result state of process_arrival when service starts: h is the head of
the queue after the append (the served job), rest the remaining queue. -/
def arrServe (s : Net) (svc : ℕ → ℚ) (e : Event) (h : ℕ) (rest : List ℕ) : Net :=
  let stA := (s.getSt e.station_id).add_to_queue e.job_id s.current_time
  let d := stA.mean_service_time * svc s.svc_idx
  let stF := { stA with queue := rest, servers_busy := stA.servers_busy + 1,
                        total_service_time := stA.total_service_time + d }
  { s with
    jobs_in_transit := s.jobs_in_transit.erase e.job_id
    stations := s.stations.set e.station_id stF
    jobs := s.jobs.set e.job_id
      (let jb := s.jobs.getD e.job_id dJob
       { jb with station_visits :=
           jb.station_visits ++ [(e.station_id, e.time, s.current_time + d)] })
    event_queue := s.event_queue ++
      [{ time := s.current_time + d, event_type := EventType.departure
         job_id := h, station_id := e.station_id }]
    svc_idx := s.svc_idx + 1 }

/-- Result state of process_departure when the queue is empty after the
completion (no job pulled into service). -/
def depNoServe (s : Net) (rt : ℕ → ℕ) (e : Event) : Net :=
  { s with
    stations := s.stations.set e.station_id
      ((s.getSt e.station_id).complete_service s.current_time)
    total_completions := s.total_completions + 1
    route_idx := s.route_idx + 1
    jobs_in_transit := insert e.job_id s.jobs_in_transit
    event_queue := s.event_queue ++
      [{ time := s.current_time, event_type := EventType.arrival
         job_id := e.job_id, station_id := rt s.route_idx % s.num_stations }] }

/-- Result state of process_departure when the freed server pulls the next
queued job h into service (rest is the remaining queue): the station pops
h, a departure for h is scheduled, then the finished job is routed. -/
def depServe (s : Net) (svc : ℕ → ℚ) (rt : ℕ → ℕ) (e : Event) (h : ℕ) (rest : List ℕ) : Net :=
  let stC := (s.getSt e.station_id).complete_service s.current_time
  let d := stC.mean_service_time * svc s.svc_idx
  let stF := { stC with queue := rest, servers_busy := stC.servers_busy + 1,
                        total_service_time := stC.total_service_time + d }
  { s with
    stations := s.stations.set e.station_id stF
    total_completions := s.total_completions + 1
    jobs := s.jobs.set h
      (let jb := s.jobs.getD h dJob
       { jb with station_visits :=
           jb.station_visits ++ [(e.station_id, s.current_time, s.current_time + d)] })
    svc_idx := s.svc_idx + 1
    route_idx := s.route_idx + 1
    jobs_in_transit := insert e.job_id s.jobs_in_transit
    event_queue := s.event_queue ++
      [{ time := s.current_time + d, event_type := EventType.departure
         job_id := h, station_id := e.station_id },
       { time := s.current_time, event_type := EventType.arrival
         job_id := e.job_id, station_id := rt s.route_idx % s.num_stations }] }

/-- Result state of process_departure when the queue is nonempty but no
server is available after the completion (unreachable when servers_busy
stays at most num_servers, kept for totality of the case analysis). -/
def depStuck (s : Net) (rt : ℕ → ℕ) (e : Event) : Net :=
  depNoServe s rt e

/-- A tiny concrete configuration used by witnesses: two stations routing
to each other, one server and unit mean each, one circulating job. -/
def demoRouting : List (List ℚ) := [[0, 1], [1, 0]]

def demoParams : List (ℤ × ℚ) := [(1, 1), (1, 1)]

def svcOne : ℕ → ℚ := fun _ => 1

def rtOne : ℕ → ℕ := fun _ => 1

def demoNet : Net := (buildNetwork 1 demoRouting demoParams).init_jobs 0

/-- Run of the demo network to horizon 3 with warmup 1. -/
def demoRun : Net × List Event := demoNet.run svcOne rtOne 3 1 10

/-- Draw stream whose first service sample is 1 and later samples are 5. -/
def svcBig : ℕ → ℚ := fun k => if k = 0 then 1 else 5

/-- Run of the demo network with the svcBig stream, no warmup, stopped by
fuel after three processed events. -/
def demoRunBig : Net × List Event := demoNet.run svcBig rtOne 10 0 3

/-- Stand-in model of the numpy global generator primed by np.random.seed:
a linear congruential step, iterated from the seed. -/
def lcgStep (x : ℕ) : ℕ := (1103515245 * x + 12345) % 2147483648

def rngAt (seed k : ℕ) : ℕ := lcgStep^[k + 1] seed

/-- Unit-exponential service draw stream derived from the seed. -/
def svcOfSeed (seed : ℕ) : ℕ → ℚ := fun k => ((rngAt seed (2 * k) % 1024 : ℕ) : ℚ) / 1024

/-- Routing draw stream derived from the seed. -/
def rtOfSeed (seed : ℕ) : ℕ → ℕ := fun k => rngAt seed (2 * k + 1)

/-- Full driver for the determinism claim: construct the network with the
seeded generator, add the stations, place all jobs at station 0, run. -/
def buildAndRun (num_jobs : ℤ) (routing : List (List ℚ)) (params : List (ℤ × ℚ))
    (seed : ℕ) (horizon warmup : ℚ) (fuel : ℕ) : Net × List Event :=
  ((buildNetwork num_jobs routing params).init_jobs 0).run
    (svcOfSeed seed) (rtOfSeed seed) horizon warmup fuel

/-- The statistics snapshot consumed after a run: total completions, final
clock, and per-station utilization, average queue length, arrivals,
departures and current queue depth. -/
def finalStats (s : Net) : ℕ × ℚ × List (ℚ × ℚ × ℕ × ℕ × ℕ) :=
  (s.total_completions, s.current_time,
    s.stations.map (fun st =>
      (st.utilization, st.avg_queue_length, st.total_arrivals,
        st.total_departures, st.queue.length)))

/-- Concrete station refuting the claim C6 increment at
last_update_time = 0: a nonempty queue that has never had a statistics
update. -/
def cexStation : Station := { dStation with queue := [7] }

/-- Concrete invalid configuration for claim C3: row 0 sums to 4/5, the
first station has zero servers and a negative mean, the population is
negative. -/
def badRouting : List (List ℚ) := [[1 / 2, 3 / 10], [1, 0]]

def badNet : Net := buildNetwork (-2) badRouting [(0, -1), (1, 1)]

/-- All stations of a state satisfy the occupancy invariant. -/
def allInv (s : Net) : Prop := ∀ st ∈ s.stations, stationInv st

/-! Basic list helpers. -/

theorem getDSetSelf {α : Type} (l : List α) (i : ℕ) (a d : α) (h : i < l.length) :
    (l.set i a).getD i d = a := by
  induction l generalizing i with
  | nil => simp at h
  | cons x xs ih =>
      cases i with
      | zero => rfl
      | succ n => simpa using ih n (by simpa using h)

theorem getDSetNe {α : Type} (l : List α) (i j : ℕ) (a d : α) (h : i ≠ j) :
    (l.set i a).getD j d = l.getD j d := by
  induction l generalizing i j with
  | nil => rfl
  | cons x xs ih =>
      cases i with
      | zero =>
          cases j with
          | zero => exact absurd rfl h
          | succ m => rfl
      | succ n =>
          cases j with
          | zero => rfl
          | succ m => simpa using ih n m (fun hc => h (by rw [hc]))

theorem memOfMemSet {α : Type} (l : List α) (i : ℕ) (a x : α) (h : x ∈ l.set i a) :
    x = a ∨ x ∈ l := by
  induction l generalizing i with
  | nil => simp at h
  | cons y ys ih =>
      cases i with
      | zero =>
          rcases (List.mem_cons).1 h with h1 | h1
          · exact Or.inl h1
          · exact Or.inr (List.mem_cons_of_mem _ h1)
      | succ n =>
          rcases (List.mem_cons).1 h with h1 | h1
          · exact Or.inr (h1 ▸ List.mem_cons_self _ _)
          · rcases ih n h1 with h2 | h2
            · exact Or.inl h2
            · exact Or.inr (List.mem_cons_of_mem _ h2)

theorem setOfLeLength {α : Type} (l : List α) (i : ℕ) (a : α) (h : l.length ≤ i) :
    l.set i a = l := by
  induction l generalizing i with
  | nil => rfl
  | cons x xs ih =>
      cases i with
      | zero => simp at h
      | succ n => simpa using ih n (by simpa using h)

theorem getDMem {α : Type} (l : List α) (i : ℕ) (d : α) (h : i < l.length) :
    l.getD i d ∈ l := by
  induction l generalizing i with
  | nil => simp at h
  | cons x xs ih =>
      cases i with
      | zero => exact List.mem_cons_self _ _
      | succ n => exact List.mem_cons_of_mem _ (ih n (by simpa using h))

theorem getDMapD {α β : Type} (f : α → β) (l : List α) (i : ℕ) (d : α) (d' : β)
    (h : i < l.length) : (l.map f).getD i d' = f (l.getD i d) := by
  induction l generalizing i with
  | nil => simp at h
  | cons x xs ih =>
      cases i with
      | zero => rfl
      | succ n => simpa using ih n (by simpa using h)

/-! Field lemmas for the station operations. -/

@[simp] theorem uqs_queue (st : Station) (t : ℚ) :
    (st.update_queue_stats t).queue = st.queue := by
  unfold Station.update_queue_stats; split <;> rfl

@[simp] theorem uqs_busy (st : Station) (t : ℚ) :
    (st.update_queue_stats t).servers_busy = st.servers_busy := by
  unfold Station.update_queue_stats; split <;> rfl

@[simp] theorem uqs_num (st : Station) (t : ℚ) :
    (st.update_queue_stats t).num_servers = st.num_servers := by
  unfold Station.update_queue_stats; split <;> rfl

@[simp] theorem uqs_mean (st : Station) (t : ℚ) :
    (st.update_queue_stats t).mean_service_time = st.mean_service_time := by
  unfold Station.update_queue_stats; split <;> rfl

@[simp] theorem uqs_arr (st : Station) (t : ℚ) :
    (st.update_queue_stats t).total_arrivals = st.total_arrivals := by
  unfold Station.update_queue_stats; split <;> rfl

@[simp] theorem uqs_dep (st : Station) (t : ℚ) :
    (st.update_queue_stats t).total_departures = st.total_departures := by
  unfold Station.update_queue_stats; split <;> rfl

@[simp] theorem uqs_tst (st : Station) (t : ℚ) :
    (st.update_queue_stats t).total_service_time = st.total_service_time := by
  unfold Station.update_queue_stats; split <;> rfl

@[simp] theorem uqs_lut (st : Station) (t : ℚ) :
    (st.update_queue_stats t).last_update_time = t := by
  unfold Station.update_queue_stats; split <;> rfl

theorem uqs_idem (st : Station) (t : ℚ) (h : st.last_update_time = t) :
    st.update_queue_stats t = st := by
  subst h
  unfold Station.update_queue_stats
  split
  · simp
  · rfl

theorem start_service_nil (st : Station) (t : ℚ) (h : st.queue = []) :
    st.start_service t = (none, st.update_queue_stats t) := by
  have hq : (st.update_queue_stats t).queue = [] := by rw [uqs_queue, h]
  unfold Station.start_service
  dsimp only
  rw [hq]

theorem start_service_cons_avail (st : Station) (t : ℚ) (j : ℕ) (rest : List ℕ)
    (h : st.queue = j :: rest) (ha : st.servers_busy < st.num_servers) :
    st.start_service t = (some j,
      { (st.update_queue_stats t) with
          queue := rest
          servers_busy := st.servers_busy + 1 }) := by
  have hq : (st.update_queue_stats t).queue = j :: rest := by rw [uqs_queue, h]
  have hav : (st.update_queue_stats t).is_available := by
    show (st.update_queue_stats t).servers_busy < (st.update_queue_stats t).num_servers
    rw [uqs_busy, uqs_num]
    exact ha
  unfold Station.start_service
  dsimp only
  rw [hq]
  dsimp only
  rw [if_pos hav]
  rw [uqs_busy]

theorem start_service_cons_full (st : Station) (t : ℚ) (j : ℕ) (rest : List ℕ)
    (h : st.queue = j :: rest) (ha : ¬ st.servers_busy < st.num_servers) :
    st.start_service t = (none, st.update_queue_stats t) := by
  have hq : (st.update_queue_stats t).queue = j :: rest := by rw [uqs_queue, h]
  have hav : ¬ (st.update_queue_stats t).is_available := by
    show ¬ (st.update_queue_stats t).servers_busy < (st.update_queue_stats t).num_servers
    rw [uqs_busy, uqs_num]
    exact ha
  unfold Station.start_service
  dsimp only
  rw [hq]
  dsimp only
  rw [if_neg hav]

@[simp] theorem atq_queue (st : Station) (j : ℕ) (t : ℚ) :
    (st.add_to_queue j t).queue = st.queue ++ [j] := by
  unfold Station.add_to_queue
  simp

@[simp] theorem atq_busy (st : Station) (j : ℕ) (t : ℚ) :
    (st.add_to_queue j t).servers_busy = st.servers_busy := by
  unfold Station.add_to_queue
  simp

@[simp] theorem atq_num (st : Station) (j : ℕ) (t : ℚ) :
    (st.add_to_queue j t).num_servers = st.num_servers := by
  unfold Station.add_to_queue
  simp

@[simp] theorem atq_mean (st : Station) (j : ℕ) (t : ℚ) :
    (st.add_to_queue j t).mean_service_time = st.mean_service_time := by
  unfold Station.add_to_queue
  simp

@[simp] theorem atq_lut (st : Station) (j : ℕ) (t : ℚ) :
    (st.add_to_queue j t).last_update_time = t := by
  unfold Station.add_to_queue
  simp

@[simp] theorem atq_tst (st : Station) (j : ℕ) (t : ℚ) :
    (st.add_to_queue j t).total_service_time = st.total_service_time := by
  unfold Station.add_to_queue
  simp

@[simp] theorem cs_queue (st : Station) (t : ℚ) :
    (st.complete_service t).queue = st.queue := by
  unfold Station.complete_service
  simp

@[simp] theorem cs_busy (st : Station) (t : ℚ) :
    (st.complete_service t).servers_busy = st.servers_busy - 1 := by
  unfold Station.complete_service
  simp

@[simp] theorem cs_num (st : Station) (t : ℚ) :
    (st.complete_service t).num_servers = st.num_servers := by
  unfold Station.complete_service
  simp

@[simp] theorem cs_mean (st : Station) (t : ℚ) :
    (st.complete_service t).mean_service_time = st.mean_service_time := by
  unfold Station.complete_service
  simp

@[simp] theorem cs_lut (st : Station) (t : ℚ) :
    (st.complete_service t).last_update_time = t := by
  unfold Station.complete_service
  simp

@[simp] theorem cs_tst (st : Station) (t : ℚ) :
    (st.complete_service t).total_service_time = st.total_service_time := by
  unfold Station.complete_service
  simp

/-! Net-level record lemmas. -/

@[simp] theorem setSt_len (s : Net) (i : ℕ) (st : Station) :
    (s.setSt i st).stations.length = s.stations.length := by
  unfold Net.setSt
  simp

theorem getSt_setSt_self (s : Net) (i : ℕ) (st : Station) (hi : i < s.stations.length) :
    (s.setSt i st).getSt i = st :=
  getDSetSelf s.stations i st dStation hi

theorem getSt_setSt_ne (s : Net) (i j : ℕ) (st : Station) (h : i ≠ j) :
    (s.setSt i st).getSt j = s.getSt j :=
  getDSetNe s.stations i j st dStation h

theorem reset_getSt (s : Net) (i : ℕ) (hi : i < s.stations.length) :
    s.reset_statistics.getSt i =
      { (s.getSt i) with
          total_arrivals := 0
          total_departures := 0
          total_queue_time := 0
          total_service_time := 0
          queue_length_sum := 0
          last_update_time := s.current_time } := by
  unfold Net.reset_statistics Net.getSt
  exact getDMapD _ s.stations i dStation dStation hi

@[simp] theorem reset_len (s : Net) :
    s.reset_statistics.stations.length = s.stations.length := by
  unfold Net.reset_statistics
  simp

/-! Facts about the construction fold. -/

theorem foldlNJ (params : List (ℤ × ℚ)) (s : Net) :
    (params.foldl (fun s p => s.add_station p.1 p.2) s).num_jobs = s.num_jobs := by
  induction params generalizing s with
  | nil => rfl
  | cons p ps ih => exact ih (s.add_station p.1 p.2)

theorem foldlRM (params : List (ℤ × ℚ)) (s : Net) :
    (params.foldl (fun s p => s.add_station p.1 p.2) s).routing_matrix = s.routing_matrix := by
  induction params generalizing s with
  | nil => rfl
  | cons p ps ih => exact ih (s.add_station p.1 p.2)

theorem foldlNS (params : List (ℤ × ℚ)) (s : Net) :
    (params.foldl (fun s p => s.add_station p.1 p.2) s).num_stations = s.num_stations := by
  induction params generalizing s with
  | nil => rfl
  | cons p ps ih => exact ih (s.add_station p.1 p.2)

theorem foldlCT (params : List (ℤ × ℚ)) (s : Net) :
    (params.foldl (fun s p => s.add_station p.1 p.2) s).current_time = s.current_time := by
  induction params generalizing s with
  | nil => rfl
  | cons p ps ih => exact ih (s.add_station p.1 p.2)

theorem foldlEQ (params : List (ℤ × ℚ)) (s : Net) :
    (params.foldl (fun s p => s.add_station p.1 p.2) s).event_queue = s.event_queue := by
  induction params generalizing s with
  | nil => rfl
  | cons p ps ih => exact ih (s.add_station p.1 p.2)

theorem foldlJobs (params : List (ℤ × ℚ)) (s : Net) :
    (params.foldl (fun s p => s.add_station p.1 p.2) s).jobs = s.jobs := by
  induction params generalizing s with
  | nil => rfl
  | cons p ps ih => exact ih (s.add_station p.1 p.2)

theorem foldlTransit (params : List (ℤ × ℚ)) (s : Net) :
    (params.foldl (fun s p => s.add_station p.1 p.2) s).jobs_in_transit = s.jobs_in_transit := by
  induction params generalizing s with
  | nil => rfl
  | cons p ps ih => exact ih (s.add_station p.1 p.2)

theorem foldlWD (params : List (ℤ × ℚ)) (s : Net) :
    (params.foldl (fun s p => s.add_station p.1 p.2) s).warmup_done = s.warmup_done := by
  induction params generalizing s with
  | nil => rfl
  | cons p ps ih => exact ih (s.add_station p.1 p.2)

theorem foldlTC (params : List (ℤ × ℚ)) (s : Net) :
    (params.foldl (fun s p => s.add_station p.1 p.2) s).total_completions = s.total_completions := by
  induction params generalizing s with
  | nil => rfl
  | cons p ps ih => exact ih (s.add_station p.1 p.2)

theorem foldlMap (params : List (ℤ × ℚ)) (s : Net) :
    (params.foldl (fun s p => s.add_station p.1 p.2) s).stations.map
      (fun st => (st.num_servers, st.mean_service_time)) =
    s.stations.map (fun st => (st.num_servers, st.mean_service_time)) ++ params := by
  induction params generalizing s with
  | nil => simp
  | cons p ps ih =>
      have h := ih (s.add_station p.1 p.2)
      refine h.trans ?_
      unfold Net.add_station
      simp [mkStation]

theorem foldlMem (params : List (ℤ × ℚ)) (s : Net) :
    ∀ st ∈ (params.foldl (fun s p => s.add_station p.1 p.2) s).stations,
      st ∈ s.stations ∨ (st.queue = [] ∧ st.servers_busy = 0 ∧
        (st.num_servers, st.mean_service_time) ∈ params) := by
  induction params generalizing s with
  | nil => exact fun st hst => Or.inl hst
  | cons p ps ih =>
      intro st hst
      rcases ih (s.add_station p.1 p.2) st hst with h | h
      · unfold Net.add_station at h
        dsimp only at h
        rcases List.mem_append.1 h with h1 | h1
        · exact Or.inl h1
        · rcases List.mem_singleton.1 h1 with rfl
          exact Or.inr ⟨rfl, rfl, by simp [mkStation]⟩
      · exact Or.inr ⟨h.1, h.2.1, List.mem_cons_of_mem _ h.2.2⟩

theorem foldlLen (params : List (ℤ × ℚ)) (s : Net) :
    (params.foldl (fun s p => s.add_station p.1 p.2) s).stations.length =
      s.stations.length + params.length := by
  have h := congrArg List.length (foldlMap params s)
  simpa using h

/-! Claims C3, C6, C4, C2, C7. -/

/-- C3 counterexample: the claim says construction of a network with a
routing row not summing to 1 (here row 0 sums to 4/5), a zero server
count, a negative mean service time and a negative population must fail at
construction time; the embedded construction sequence, which mirrors an
__init__ and add_station pair containing no validation code, instead
completes normally and stores the malformed values verbatim. -/
theorem C3_counterexample :
    (badNet.routing_matrix.getD 0 []).sum ≠ 1 ∧
    badNet.routing_matrix = badRouting ∧
    badNet.num_jobs = -2 ∧
    badNet.num_stations = 2 ∧
    badNet.stations.map (fun st => (st.num_servers, st.mean_service_time)) =
      [(0, -1), (1, 1)] := by
  refine ⟨by with_unfolding_all decide, rfl, rfl, rfl, rfl⟩

/-- C3 amended: construction performs no validation at all.  For every
population, routing matrix and station parameter list, valid or not, the
construction sequence succeeds and stores the configuration verbatim;
malformed values are not rejected at construction time (a bad routing row
can only surface later, at run time, inside the library routing draw). -/
theorem C3_construction_unvalidated (num_jobs : ℤ) (routing : List (List ℚ))
    (params : List (ℤ × ℚ)) :
    (buildNetwork num_jobs routing params).num_jobs = num_jobs ∧
    (buildNetwork num_jobs routing params).routing_matrix = routing ∧
    (buildNetwork num_jobs routing params).num_stations = routing.length ∧
    (buildNetwork num_jobs routing params).stations.map
      (fun st => (st.num_servers, st.mean_service_time)) = params := by
  unfold buildNetwork
  refine ⟨foldlNJ _ _, foldlRM _ _, ?_, ?_⟩
  · rw [foldlNS]
    rfl
  · rw [foldlMap]
    rfl

/-- C6 counterexample: the claim asserts the enqueue integral increment
applies for every value of last_update_time including 0; on a station with
a job queued and last_update_time = 0, enqueueing at time 5 leaves the
integral at 0 while the claimed update would yield 5. -/
theorem C6_counterexample :
    (cexStation.add_to_queue 9 5).queue_length_sum ≠ claimEnqueueSum cexStation 5 := by
  with_unfolding_all decide

/-- C6 amended: enqueue appends the job and increments total_arrivals, and
it first adds (queue length before the call) times (now minus
last_update_time) to the queue-length integral and sets last_update_time
to now, but only when last_update_time is positive; when last_update_time
is 0 the increment is skipped and only last_update_time is set. -/
theorem C6_enqueue_update (st : Station) (j : ℕ) (t : ℚ) :
    (st.add_to_queue j t).queue = st.queue ++ [j] ∧
    (st.add_to_queue j t).total_arrivals = st.total_arrivals + 1 ∧
    (st.add_to_queue j t).last_update_time = t ∧
    (st.add_to_queue j t).queue_length_sum =
      (if 0 < st.last_update_time then claimEnqueueSum st t else st.queue_length_sum) ∧
    (st.add_to_queue j t).servers_busy = st.servers_busy ∧
    (st.add_to_queue j t).total_service_time = st.total_service_time ∧
    (st.add_to_queue j t).total_departures = st.total_departures := by
  unfold Station.add_to_queue Station.update_queue_stats claimEnqueueSum
  split <;> simp

/-- C4: at the warmup transition (a popped event whose time has reached
the warmup threshold while the warmup flag is still down), the run step
routes through the statistics reset: immediately after the reset all
per-station accumulators and the engine completion counter are exactly
zero, the last statistics update time of every station equals the current
clock, and the physical state (queue contents, busy servers, jobs in
transit, pending events, clock) is unchanged by the reset. -/
theorem C4_warmup_reset (s : Net) (i : ℕ) (svc : ℕ → ℚ) (rt : ℕ → ℕ)
    (warmup : ℚ) (e : Event) (rest : List Event)
    (hi : i < s.stations.length) (hwd : s.warmup_done = false) (hw : warmup ≤ e.time) :
    (s.reset_statistics.getSt i).total_arrivals = 0 ∧
    (s.reset_statistics.getSt i).total_departures = 0 ∧
    (s.reset_statistics.getSt i).total_service_time = 0 ∧
    (s.reset_statistics.getSt i).queue_length_sum = 0 ∧
    s.reset_statistics.total_completions = 0 ∧
    (s.reset_statistics.getSt i).last_update_time = s.current_time ∧
    (s.reset_statistics.getSt i).queue = (s.getSt i).queue ∧
    (s.reset_statistics.getSt i).servers_busy = (s.getSt i).servers_busy ∧
    s.reset_statistics.jobs_in_transit = s.jobs_in_transit ∧
    s.reset_statistics.event_queue = s.event_queue ∧
    s.reset_statistics.current_time = s.current_time ∧
    stepPopped svc rt warmup s e rest =
      Net.dispatch
        { Net.reset_statistics { s with event_queue := rest, current_time := e.time } with
            warmup_done := true } svc rt e := by
  rw [reset_getSt s i hi]
  refine ⟨rfl, rfl, rfl, rfl, rfl, rfl, rfl, rfl, rfl, rfl, rfl, ?_⟩
  unfold stepPopped
  dsimp only
  rw [if_pos ⟨hwd, hw⟩]

/-- C2 counterexample: in the concrete demo run (two symmetric stations,
one job, unit draws, horizon 3, warmup 1), station 1 at final clock T = 3
reports utilization 2/3 = total service time 2 over last_update_time 3,
while the claimed formula with denominator num_servers times (T minus W)
yields 1; the two disagree, refuting the claim that the denominators
measure the wall-clock elapsed since the statistics reset. -/
theorem C2_counterexample :
    demoRun.1.current_time = 3 ∧
    (demoRun.1.getSt 1).utilization = 2 / 3 ∧
    claimUtilization (demoRun.1.getSt 1) demoRun.1.current_time 1 = 1 ∧
    (demoRun.1.getSt 1).utilization ≠
      claimUtilization (demoRun.1.getSt 1) demoRun.1.current_time 1 := by
  refine ⟨by with_unfolding_all decide, by with_unfolding_all decide,
    by with_unfolding_all decide, by with_unfolding_all decide⟩

/-- C2 amended: the utilization denominator is num_servers times the
absolute last statistics update time of the station (its value after a
reset restarts at the reset clock, measured from simulation start, not
from the warmup threshold), and avg_queue_length likewise divides the
integral by the absolute last update time. -/
theorem C2_denominator_absolute (s : Net) (i : ℕ) (hi : i < s.stations.length)
    (h : (s.getSt i).total_service_time ≠ 0) :
    (s.getSt i).utilization =
      (s.getSt i).total_service_time /
        (((s.getSt i).num_servers : ℚ) * (s.getSt i).last_update_time) ∧
    ((s.getSt i).last_update_time ≠ 0 →
      (s.getSt i).avg_queue_length =
        (s.getSt i).queue_length_sum / (s.getSt i).last_update_time) ∧
    (s.reset_statistics.getSt i).last_update_time = s.current_time := by
  refine ⟨?_, ?_, ?_⟩
  · unfold Station.utilization
    rw [if_neg h]
  · intro hl
    unfold Station.avg_queue_length
    rw [if_neg hl]
  · rw [reset_getSt s i hi]

theorem C2_denominator_absolute_witness :
    (1 < demoRun.1.stations.length ∧ (demoRun.1.getSt 1).total_service_time ≠ 0) ∧
    ((demoRun.1.getSt 1).utilization =
      (demoRun.1.getSt 1).total_service_time /
        (((demoRun.1.getSt 1).num_servers : ℚ) * (demoRun.1.getSt 1).last_update_time) ∧
    ((demoRun.1.getSt 1).last_update_time ≠ 0 →
      (demoRun.1.getSt 1).avg_queue_length =
        (demoRun.1.getSt 1).queue_length_sum / (demoRun.1.getSt 1).last_update_time) ∧
    (demoRun.1.reset_statistics.getSt 1).last_update_time = demoRun.1.current_time) :=
  ⟨⟨by with_unfolding_all decide, by with_unfolding_all decide⟩,
    C2_denominator_absolute demoRun.1 1 (by with_unfolding_all decide)
      (by with_unfolding_all decide)⟩

/-- C7: determinism.  All randomness is drawn from streams that are a
pure function of the seed (modeling the numpy global generator primed by
np.random.seed at construction), so two runs of the full driver with the
same seed, stations, routing matrix, population, horizon and warmup yield
the same processed event sequence (time, kind, job, station per event) and
the same final statistics snapshot. -/
theorem C7_determinism (num_jobs : ℤ) (routing : List (List ℚ)) (params : List (ℤ × ℚ))
    (seed : ℕ) (horizon warmup : ℚ) (fuel : ℕ) (r1 r2 : Net × List Event)
    (h1 : r1 = buildAndRun num_jobs routing params seed horizon warmup fuel)
    (h2 : r2 = buildAndRun num_jobs routing params seed horizon warmup fuel) :
    r1.2 = r2.2 ∧ finalStats r1.1 = finalStats r2.1 := by
  subst h1
  subst h2
  exact ⟨rfl, rfl⟩

theorem C7_determinism_witness :
    (buildAndRun 1 demoRouting demoParams 42 3 1 10 =
      buildAndRun 1 demoRouting demoParams 42 3 1 10) ∧
    ((buildAndRun 1 demoRouting demoParams 42 3 1 10).2 =
      (buildAndRun 1 demoRouting demoParams 42 3 1 10).2 ∧
     finalStats (buildAndRun 1 demoRouting demoParams 42 3 1 10).1 =
      finalStats (buildAndRun 1 demoRouting demoParams 42 3 1 10).1) :=
  ⟨rfl, C7_determinism 1 demoRouting demoParams 42 3 1 10 _ _ rfl rfl⟩

theorem C4_warmup_reset_witness :
    (0 < demoNet.stations.length ∧ demoNet.warmup_done = false ∧
      (1 : ℚ) ≤ (Event.mk 2 EventType.arrival 0 0).time) ∧
    ((demoNet.reset_statistics.getSt 0).total_arrivals = 0 ∧
     (demoNet.reset_statistics.getSt 0).total_departures = 0 ∧
     (demoNet.reset_statistics.getSt 0).total_service_time = 0 ∧
     (demoNet.reset_statistics.getSt 0).queue_length_sum = 0 ∧
     demoNet.reset_statistics.total_completions = 0 ∧
     (demoNet.reset_statistics.getSt 0).last_update_time = demoNet.current_time ∧
     (demoNet.reset_statistics.getSt 0).queue = (demoNet.getSt 0).queue ∧
     (demoNet.reset_statistics.getSt 0).servers_busy = (demoNet.getSt 0).servers_busy ∧
     demoNet.reset_statistics.jobs_in_transit = demoNet.jobs_in_transit ∧
     demoNet.reset_statistics.event_queue = demoNet.event_queue ∧
     demoNet.reset_statistics.current_time = demoNet.current_time ∧
     stepPopped svcOne rtOne 1 demoNet (Event.mk 2 EventType.arrival 0 0) [] =
       Net.dispatch
         { Net.reset_statistics
             { demoNet with
                 event_queue := []
                 current_time := (Event.mk 2 EventType.arrival 0 0).time } with
             warmup_done := true } svcOne rtOne (Event.mk 2 EventType.arrival 0 0)) :=
  ⟨⟨by with_unfolding_all decide, by with_unfolding_all decide, by with_unfolding_all decide⟩,
    C4_warmup_reset demoNet 0 svcOne rtOne 1 (Event.mk 2 EventType.arrival 0 0) []
      (by with_unfolding_all decide) (by with_unfolding_all decide)
      (by with_unfolding_all decide)⟩

/-! Shape lemmas: each handler equals one of the explicit result states. -/

theorem process_arrival_no_serve (s : Net) (svc : ℕ → ℚ) (e : Event)
    (ha : ¬ (s.getSt e.station_id).servers_busy < (s.getSt e.station_id).num_servers) :
    s.process_arrival svc e = arrNoServe s e := by
  have hb : ¬ ((s.getSt e.station_id).add_to_queue e.job_id s.current_time).is_available := by
    show ¬ (_ < _)
    rw [atq_busy, atq_num]
    exact ha
  unfold Net.process_arrival arrNoServe
  dsimp only [Net.getSt, Net.setSt] at hb ⊢
  rw [if_neg hb]

theorem process_arrival_serve (s : Net) (svc : ℕ → ℚ) (e : Event) (h : ℕ) (rest : List ℕ)
    (hq : (s.getSt e.station_id).queue ++ [e.job_id] = h :: rest)
    (ha : (s.getSt e.station_id).servers_busy < (s.getSt e.station_id).num_servers) :
    s.process_arrival svc e = arrServe s svc e h rest := by
  have hav : ((s.getSt e.station_id).add_to_queue e.job_id s.current_time).is_available := by
    show _ < _
    rw [atq_busy, atq_num]
    exact ha
  have hq1 : ((s.getSt e.station_id).add_to_queue e.job_id s.current_time).queue = h :: rest := by
    rw [atq_queue]
    exact hq
  have hlut : ((s.getSt e.station_id).add_to_queue e.job_id
      s.current_time).last_update_time = s.current_time := atq_lut _ _ _
  have hss : ((s.getSt e.station_id).add_to_queue e.job_id s.current_time).start_service
        s.current_time =
      (some h, { ((s.getSt e.station_id).add_to_queue e.job_id s.current_time) with
          queue := rest
          servers_busy :=
            ((s.getSt e.station_id).add_to_queue e.job_id s.current_time).servers_busy + 1 }) := by
    rw [start_service_cons_avail _ s.current_time h rest hq1 hav,
        uqs_idem _ s.current_time hlut]
  unfold Net.process_arrival arrServe
  dsimp only [Net.getSt, Net.setSt, Net.schedule_event, Net.modifyJob] at hav hss ⊢
  rw [if_pos hav, hss]
  dsimp only
  rw [List.set_set]

theorem process_departure_no_serve (s : Net) (svc : ℕ → ℚ) (rt : ℕ → ℕ) (e : Event)
    (hq : (s.getSt e.station_id).queue = []) :
    s.process_departure svc rt e = depNoServe s rt e := by
  have hq1 : ((s.getSt e.station_id).complete_service s.current_time).queue = [] := by
    rw [cs_queue]
    exact hq
  have hnn : ¬ (((s.getSt e.station_id).complete_service s.current_time).queue ≠ []) :=
    fun hc => hc hq1
  unfold Net.process_departure depNoServe
  dsimp only [Net.getSt, Net.setSt, Net.schedule_event, Net.get_next_station] at hnn ⊢
  rw [if_neg hnn]

theorem process_departure_serve (s : Net) (svc : ℕ → ℚ) (rt : ℕ → ℕ) (e : Event)
    (h : ℕ) (rest : List ℕ)
    (hq : (s.getSt e.station_id).queue = h :: rest)
    (ha : (s.getSt e.station_id).servers_busy - 1 < (s.getSt e.station_id).num_servers) :
    s.process_departure svc rt e = depServe s svc rt e h rest := by
  have hq1 : ((s.getSt e.station_id).complete_service s.current_time).queue = h :: rest := by
    rw [cs_queue]
    exact hq
  have hne : ((s.getSt e.station_id).complete_service s.current_time).queue ≠ [] := by
    rw [hq1]
    exact List.cons_ne_nil _ _
  have hav : ((s.getSt e.station_id).complete_service s.current_time).servers_busy <
      ((s.getSt e.station_id).complete_service s.current_time).num_servers := by
    rw [cs_busy, cs_num]
    exact ha
  have hlut : ((s.getSt e.station_id).complete_service
      s.current_time).last_update_time = s.current_time := cs_lut _ _
  have hss : ((s.getSt e.station_id).complete_service s.current_time).start_service
        s.current_time =
      (some h, { ((s.getSt e.station_id).complete_service s.current_time) with
          queue := rest
          servers_busy :=
            ((s.getSt e.station_id).complete_service s.current_time).servers_busy + 1 }) := by
    rw [start_service_cons_avail _ s.current_time h rest hq1 hav,
        uqs_idem _ s.current_time hlut]
  unfold Net.process_departure depServe
  dsimp only [Net.getSt, Net.setSt, Net.schedule_event, Net.modifyJob,
    Net.get_next_station] at hne hss ⊢
  rw [if_pos hne, hss]
  dsimp only
  rw [List.set_set, List.append_assoc]
  simp only [List.singleton_append]

theorem process_departure_stuck (s : Net) (svc : ℕ → ℚ) (rt : ℕ → ℕ) (e : Event)
    (h : ℕ) (rest : List ℕ)
    (hq : (s.getSt e.station_id).queue = h :: rest)
    (ha : ¬ (s.getSt e.station_id).servers_busy - 1 < (s.getSt e.station_id).num_servers) :
    s.process_departure svc rt e = depNoServe s rt e := by
  have hq1 : ((s.getSt e.station_id).complete_service s.current_time).queue = h :: rest := by
    rw [cs_queue]
    exact hq
  have hne : ((s.getSt e.station_id).complete_service s.current_time).queue ≠ [] := by
    rw [hq1]
    exact List.cons_ne_nil _ _
  have hav : ¬ ((s.getSt e.station_id).complete_service s.current_time).servers_busy <
      ((s.getSt e.station_id).complete_service s.current_time).num_servers := by
    rw [cs_busy, cs_num]
    exact ha
  have hlut : ((s.getSt e.station_id).complete_service
      s.current_time).last_update_time = s.current_time := cs_lut _ _
  have hss : ((s.getSt e.station_id).complete_service s.current_time).start_service
        s.current_time =
      (none, ((s.getSt e.station_id).complete_service s.current_time)) := by
    rw [start_service_cons_full _ s.current_time h rest hq1 hav,
        uqs_idem _ s.current_time hlut]
  unfold Net.process_departure depNoServe
  dsimp only [Net.getSt, Net.setSt, Net.schedule_event, Net.get_next_station] at hne hss ⊢
  rw [if_pos hne, hss]
  dsimp only
  rw [List.set_set]

/-! Preservation of the station occupancy invariant (claim C9). -/

theorem getDOfLe {α : Type} (l : List α) (i : ℕ) (d : α) (h : l.length ≤ i) :
    l.getD i d = d := by
  induction l generalizing i with
  | nil => cases i <;> rfl
  | cons x xs ih =>
      cases i with
      | zero => simp at h
      | succ n => simpa using ih n (by simpa using h)

theorem allInv_reset (s : Net) (h : allInv s) : allInv s.reset_statistics := by
  intro st hst
  unfold Net.reset_statistics at hst
  dsimp only at hst
  rcases List.mem_map.1 hst with ⟨st0, hst0, rfl⟩
  rcases h st0 hst0 with ⟨h1, h2⟩
  exact ⟨h1, h2⟩

theorem allInv_arrival (s : Net) (svc : ℕ → ℚ) (e : Event) (h : allInv s) :
    allInv (s.process_arrival svc e) := by
  by_cases hk : e.station_id < s.stations.length
  · by_cases hav : (s.getSt e.station_id).servers_busy < (s.getSt e.station_id).num_servers
    · have hJ := h (s.getSt e.station_id) (getDMem _ _ _ hk)
      have hq0 : (s.getSt e.station_id).queue = [] := by
        by_contra hne
        have h2 := hJ.2 hne
        omega
      have hq : (s.getSt e.station_id).queue ++ [e.job_id] = e.job_id :: [] := by
        rw [hq0]
        rfl
      rw [process_arrival_serve s svc e e.job_id [] hq hav]
      intro st hst
      unfold arrServe at hst
      dsimp only [Net.setSt] at hst
      rcases memOfMemSet _ _ _ _ hst with rfl | hmem
      · refine ⟨?_, ?_⟩
        · dsimp only
          rw [atq_busy, atq_num]
          omega
        · intro hne
          exact absurd rfl hne
      · exact h st hmem
    · rw [process_arrival_no_serve s svc e hav]
      intro st hst
      unfold arrNoServe at hst
      dsimp only [Net.setSt] at hst
      rcases memOfMemSet _ _ _ _ hst with rfl | hmem
      · have hJ := h (s.getSt e.station_id) (getDMem _ _ _ hk)
        refine ⟨?_, ?_⟩
        · rw [atq_busy, atq_num]
          exact hJ.1
        · intro _
          rw [atq_busy, atq_num]
          have h1 := hJ.1
          omega
      · exact h st hmem
  · have hd : s.getSt e.station_id = dStation :=
      getDOfLe _ _ _ (Nat.le_of_not_lt hk)
    have hav : ¬ (s.getSt e.station_id).servers_busy < (s.getSt e.station_id).num_servers := by
      rw [hd]
      exact lt_irrefl 0
    rw [process_arrival_no_serve s svc e hav]
    intro st hst
    unfold arrNoServe at hst
    dsimp only [Net.setSt] at hst
    rw [setOfLeLength _ _ _ (Nat.le_of_not_lt hk)] at hst
    exact h st hst

theorem allInv_departure (s : Net) (svc : ℕ → ℚ) (rt : ℕ → ℕ) (e : Event) (h : allInv s) :
    allInv (s.process_departure svc rt e) := by
  by_cases hk : e.station_id < s.stations.length
  · have hJ := h (s.getSt e.station_id) (getDMem _ _ _ hk)
    cases hq : (s.getSt e.station_id).queue with
    | nil =>
        rw [process_departure_no_serve s svc rt e hq]
        intro st hst
        unfold depNoServe at hst
        dsimp only [Net.setSt] at hst
        rcases memOfMemSet _ _ _ _ hst with rfl | hmem
        · refine ⟨?_, ?_⟩
          · rw [cs_busy, cs_num]
            have h1 := hJ.1
            omega
          · intro hne
            rw [cs_queue] at hne
            exact absurd hq hne
        · exact h st hmem
    | cons hd tl =>
        have ha : (s.getSt e.station_id).servers_busy - 1 < (s.getSt e.station_id).num_servers := by
          have h1 := hJ.1
          omega
        rw [process_departure_serve s svc rt e hd tl hq ha]
        intro st hst
        unfold depServe at hst
        dsimp only [Net.setSt] at hst
        rcases memOfMemSet _ _ _ _ hst with rfl | hmem
        · refine ⟨?_, ?_⟩
          · dsimp only
            rw [cs_busy, cs_num]
            have h1 := hJ.1
            omega
          · intro hne
            dsimp only at hne ⊢
            rw [cs_busy, cs_num]
            have h2 := hJ.2 (by rw [hq]; exact List.cons_ne_nil _ _)
            omega
        · exact h st hmem
  · have hd : s.getSt e.station_id = dStation :=
      getDOfLe _ _ _ (Nat.le_of_not_lt hk)
    have hq : (s.getSt e.station_id).queue = [] := by rw [hd]; rfl
    rw [process_departure_no_serve s svc rt e hq]
    intro st hst
    unfold depNoServe at hst
    dsimp only [Net.setSt] at hst
    rw [setOfLeLength _ _ _ (Nat.le_of_not_lt hk)] at hst
    exact h st hst

theorem allInv_dispatch (s : Net) (svc : ℕ → ℚ) (rt : ℕ → ℕ) (e : Event) (h : allInv s) :
    allInv (s.dispatch svc rt e) := by
  unfold Net.dispatch
  split
  · exact allInv_arrival _ _ _ h
  · exact allInv_departure _ _ _ _ h

theorem allInv_stepPopped (svc : ℕ → ℚ) (rt : ℕ → ℕ) (warmup : ℚ) (s : Net)
    (e : Event) (rest : List Event) (h : allInv s) :
    allInv (stepPopped svc rt warmup s e rest) := by
  unfold stepPopped
  dsimp only
  have h1 : allInv { s with event_queue := rest, current_time := e.time } := h
  split
  · exact allInv_dispatch _ _ _ _ (allInv_reset _ h1)
  · exact allInv_dispatch _ _ _ _ h1

theorem allInv_runAux (svc : ℕ → ℚ) (rt : ℕ → ℕ) (horizon warmup : ℚ) (fuel : ℕ)
    (s : Net) (h : allInv s) : allInv (runAux svc rt horizon warmup fuel s).1 := by
  induction fuel generalizing s with
  | zero => exact h
  | succ n ih =>
      unfold runAux
      split
      · split
        · exact h
        · exact ih _ (allInv_stepPopped _ _ _ _ _ _ h)
      · exact h

theorem allInv_init (num_jobs : ℤ) (routing : List (List ℚ)) (params : List (ℤ × ℚ))
    (i0 : ℕ) (hns : ∀ p ∈ params, 0 ≤ p.1) :
    allInv ((buildNetwork num_jobs routing params).init_jobs i0) := by
  intro st hst
  unfold Net.init_jobs at hst
  dsimp only at hst
  unfold buildNetwork at hst
  rcases foldlMem params (mkNetwork num_jobs routing) st hst with hmem | ⟨hq, hb, hp⟩
  · simp [mkNetwork] at hmem
  · refine ⟨?_, ?_⟩
    · rw [hb]
      exact hns _ hp
    · intro hne
      exact absurd hq hne

/-- C9: in every state reached by a run from a freshly built and
initialized network (any fuel, so every point between processed events),
every station has servers_busy at most num_servers, and a station with a
nonempty queue has all servers busy; consequently, whenever an arrival at
a station satisfying this invariant finds a server available, the job
selected by start_service is the arriving job itself. -/
theorem C9_nonempty_queue_all_busy (num_jobs : ℤ) (routing : List (List ℚ))
    (params : List (ℤ × ℚ)) (i0 : ℕ) (svc : ℕ → ℚ) (rt : ℕ → ℕ)
    (horizon warmup : ℚ) (fuel : ℕ) (s2 : Net) (e2 : Event)
    (hns : ∀ p ∈ params, 0 ≤ p.1)
    (hJ2 : stationInv (s2.getSt e2.station_id))
    (hav2 : (s2.getSt e2.station_id).servers_busy < (s2.getSt e2.station_id).num_servers) :
    (∀ st ∈ (((buildNetwork num_jobs routing params).init_jobs i0).run svc rt
        horizon warmup fuel).1.stations,
      st.servers_busy ≤ st.num_servers ∧ (st.queue ≠ [] → st.servers_busy = st.num_servers)) ∧
    ((s2.getSt e2.station_id).add_to_queue e2.job_id s2.current_time).start_service
        s2.current_time =
      (some e2.job_id,
        { ((s2.getSt e2.station_id).add_to_queue e2.job_id s2.current_time) with
            queue := []
            servers_busy :=
              ((s2.getSt e2.station_id).add_to_queue e2.job_id s2.current_time).servers_busy
                + 1 }) := by
  constructor
  · have h0 := allInv_init num_jobs routing params i0 hns
    unfold Net.run
    exact allInv_runAux _ _ _ _ _ _ h0
  · have hq0 : (s2.getSt e2.station_id).queue = [] := by
      by_contra hne
      have h2 := hJ2.2 hne
      omega
    have hA : ((s2.getSt e2.station_id).add_to_queue e2.job_id s2.current_time).queue =
        e2.job_id :: [] := by
      rw [atq_queue, hq0]
      rfl
    have hav : ((s2.getSt e2.station_id).add_to_queue e2.job_id
        s2.current_time).is_available := by
      show _ < _
      rw [atq_busy, atq_num]
      exact hav2
    have hlut : ((s2.getSt e2.station_id).add_to_queue e2.job_id
        s2.current_time).last_update_time = s2.current_time := atq_lut _ _ _
    rw [start_service_cons_avail _ s2.current_time e2.job_id [] hA hav,
        uqs_idem _ s2.current_time hlut]

theorem C9_nonempty_queue_all_busy_witness :
    ((∀ p ∈ demoParams, 0 ≤ p.1) ∧
     stationInv (demoNet.getSt (Event.mk 0 EventType.arrival 0 0).station_id) ∧
     (demoNet.getSt (Event.mk 0 EventType.arrival 0 0).station_id).servers_busy <
       (demoNet.getSt (Event.mk 0 EventType.arrival 0 0).station_id).num_servers) ∧
    ((∀ st ∈ (((buildNetwork 1 demoRouting demoParams).init_jobs 0).run svcOne rtOne
        3 1 10).1.stations,
      st.servers_busy ≤ st.num_servers ∧ (st.queue ≠ [] → st.servers_busy = st.num_servers)) ∧
    ((demoNet.getSt (Event.mk 0 EventType.arrival 0 0).station_id).add_to_queue
        (Event.mk 0 EventType.arrival 0 0).job_id demoNet.current_time).start_service
        demoNet.current_time =
      (some (Event.mk 0 EventType.arrival 0 0).job_id,
        { ((demoNet.getSt (Event.mk 0 EventType.arrival 0 0).station_id).add_to_queue
            (Event.mk 0 EventType.arrival 0 0).job_id demoNet.current_time) with
            queue := []
            servers_busy :=
              ((demoNet.getSt (Event.mk 0 EventType.arrival 0 0).station_id).add_to_queue
                (Event.mk 0 EventType.arrival 0 0).job_id demoNet.current_time).servers_busy
                + 1 })) :=
  ⟨⟨by with_unfolding_all decide, by with_unfolding_all decide, by with_unfolding_all decide⟩,
    C9_nonempty_queue_all_busy 1 demoRouting demoParams 0 svcOne rtOne 3 1 10
      demoNet (Event.mk 0 EventType.arrival 0 0)
      (by with_unfolding_all decide) (by with_unfolding_all decide)
      (by with_unfolding_all decide)⟩

/-- C5: on an arrival at a station in range, with the run invariant at
that station and the clock aligned with the event time, the job is removed
from jobs_in_transit; if a server is available, the selected job is the
arriving one: the visit record (S, t, t + duration) is appended to the
history of that selected job and a departure for it is scheduled at
t + duration; otherwise the job just joins the FIFO queue tail and no
event is scheduled. -/
theorem C5_arrival_contract (s : Net) (svc : ℕ → ℚ) (e : Event)
    (hk : e.station_id < s.stations.length)
    (hj : e.job_id < s.jobs.length)
    (hct : s.current_time = e.time)
    (hJ : stationInv (s.getSt e.station_id)) :
    (s.process_arrival svc e).jobs_in_transit = s.jobs_in_transit.erase e.job_id ∧
    e.job_id ∉ (s.process_arrival svc e).jobs_in_transit ∧
    ((s.getSt e.station_id).servers_busy < (s.getSt e.station_id).num_servers →
      (((s.process_arrival svc e).jobs.getD e.job_id dJob).station_visits =
        (s.jobs.getD e.job_id dJob).station_visits ++
          [(e.station_id, e.time,
            e.time + (s.getSt e.station_id).mean_service_time * svc s.svc_idx)] ∧
      (s.process_arrival svc e).event_queue =
        s.event_queue ++
          [{ time := e.time + (s.getSt e.station_id).mean_service_time * svc s.svc_idx
             event_type := EventType.departure
             job_id := e.job_id
             station_id := e.station_id }] ∧
      ((s.process_arrival svc e).getSt e.station_id).queue = [] ∧
      ((s.process_arrival svc e).getSt e.station_id).servers_busy =
        (s.getSt e.station_id).servers_busy + 1)) ∧
    (¬ (s.getSt e.station_id).servers_busy < (s.getSt e.station_id).num_servers →
      ((s.process_arrival svc e).event_queue = s.event_queue ∧
       (s.process_arrival svc e).jobs = s.jobs ∧
       ((s.process_arrival svc e).getSt e.station_id).queue =
         (s.getSt e.station_id).queue ++ [e.job_id])) := by
  by_cases hav : (s.getSt e.station_id).servers_busy < (s.getSt e.station_id).num_servers
  · have hq0 : (s.getSt e.station_id).queue = [] := by
      by_contra hne
      have h2 := hJ.2 hne
      omega
    have hq : (s.getSt e.station_id).queue ++ [e.job_id] = e.job_id :: [] := by
      rw [hq0]
      rfl
    rw [process_arrival_serve s svc e e.job_id [] hq hav]
    unfold arrServe
    dsimp only [Net.setSt]
    refine ⟨rfl, Finset.not_mem_erase _ _, fun _ => ?_, fun hn => absurd hav hn⟩
    refine ⟨?_, ?_, ?_, ?_⟩
    · rw [getDSetSelf _ _ _ _ hj]
      dsimp only
      rw [atq_mean, hct]
    · rw [atq_mean, hct]
    · show ((s.stations.set e.station_id _).getD e.station_id dStation).queue = []
      rw [getDSetSelf _ _ _ _ (by simpa using hk)]
    · show ((s.stations.set e.station_id _).getD e.station_id dStation).servers_busy = _
      rw [getDSetSelf _ _ _ _ (by simpa using hk)]
      dsimp only
      rw [atq_busy]
  · rw [process_arrival_no_serve s svc e hav]
    unfold arrNoServe
    dsimp only [Net.setSt]
    refine ⟨rfl, Finset.not_mem_erase _ _, fun hc => absurd hc hav, fun _ => ⟨rfl, rfl, ?_⟩⟩
    show ((s.stations.set e.station_id _).getD e.station_id dStation).queue = _
    rw [getDSetSelf _ _ _ _ (by simpa using hk)]
    rw [atq_queue]

theorem C5_arrival_contract_witness :
    ((Event.mk 0 EventType.arrival 0 0).station_id < demoNet.stations.length ∧
     (Event.mk 0 EventType.arrival 0 0).job_id < demoNet.jobs.length ∧
     demoNet.current_time = (Event.mk 0 EventType.arrival 0 0).time ∧
     stationInv (demoNet.getSt (Event.mk 0 EventType.arrival 0 0).station_id)) ∧
    ((demoNet.process_arrival svcOne (Event.mk 0 EventType.arrival 0 0)).jobs_in_transit =
      demoNet.jobs_in_transit.erase (Event.mk 0 EventType.arrival 0 0).job_id ∧
    (Event.mk 0 EventType.arrival 0 0).job_id ∉
      (demoNet.process_arrival svcOne (Event.mk 0 EventType.arrival 0 0)).jobs_in_transit ∧
    ((demoNet.getSt (Event.mk 0 EventType.arrival 0 0).station_id).servers_busy <
        (demoNet.getSt (Event.mk 0 EventType.arrival 0 0).station_id).num_servers →
      (((demoNet.process_arrival svcOne (Event.mk 0 EventType.arrival 0 0)).jobs.getD
          (Event.mk 0 EventType.arrival 0 0).job_id dJob).station_visits =
        (demoNet.jobs.getD (Event.mk 0 EventType.arrival 0 0).job_id dJob).station_visits ++
          [((Event.mk 0 EventType.arrival 0 0).station_id,
            (Event.mk 0 EventType.arrival 0 0).time,
            (Event.mk 0 EventType.arrival 0 0).time +
              (demoNet.getSt (Event.mk 0 EventType.arrival 0 0).station_id).mean_service_time *
                svcOne demoNet.svc_idx)] ∧
      (demoNet.process_arrival svcOne (Event.mk 0 EventType.arrival 0 0)).event_queue =
        demoNet.event_queue ++
          [{ time := (Event.mk 0 EventType.arrival 0 0).time +
              (demoNet.getSt (Event.mk 0 EventType.arrival 0 0).station_id).mean_service_time *
                svcOne demoNet.svc_idx
             event_type := EventType.departure
             job_id := (Event.mk 0 EventType.arrival 0 0).job_id
             station_id := (Event.mk 0 EventType.arrival 0 0).station_id }] ∧
      ((demoNet.process_arrival svcOne (Event.mk 0 EventType.arrival 0 0)).getSt
          (Event.mk 0 EventType.arrival 0 0).station_id).queue = [] ∧
      ((demoNet.process_arrival svcOne (Event.mk 0 EventType.arrival 0 0)).getSt
          (Event.mk 0 EventType.arrival 0 0).station_id).servers_busy =
        (demoNet.getSt (Event.mk 0 EventType.arrival 0 0).station_id).servers_busy + 1)) ∧
    (¬ (demoNet.getSt (Event.mk 0 EventType.arrival 0 0).station_id).servers_busy <
        (demoNet.getSt (Event.mk 0 EventType.arrival 0 0).station_id).num_servers →
      ((demoNet.process_arrival svcOne (Event.mk 0 EventType.arrival 0 0)).event_queue =
        demoNet.event_queue ∧
       (demoNet.process_arrival svcOne (Event.mk 0 EventType.arrival 0 0)).jobs =
        demoNet.jobs ∧
       ((demoNet.process_arrival svcOne (Event.mk 0 EventType.arrival 0 0)).getSt
          (Event.mk 0 EventType.arrival 0 0).station_id).queue =
         (demoNet.getSt (Event.mk 0 EventType.arrival 0 0).station_id).queue ++
           [(Event.mk 0 EventType.arrival 0 0).job_id]))) :=
  ⟨⟨by with_unfolding_all decide, by with_unfolding_all decide,
     by with_unfolding_all decide, by with_unfolding_all decide⟩,
    C5_arrival_contract demoNet svcOne (Event.mk 0 EventType.arrival 0 0)
      (by with_unfolding_all decide) (by with_unfolding_all decide)
      (by with_unfolding_all decide) (by with_unfolding_all decide)⟩

/-- C10: every sampled service duration is added to total_service_time in
full at the moment service starts (the accumulator grows by the whole
draw, mean_service_time times the stream sample, even though the service
extends beyond the current clock), and consequently a reachable state
reports a utilization above 1: three events into the demoRunBig run (one
job, draws 1 then 5), station 1 has total_service_time 5 against
last_update_time 1, so utilization is 5. -/
theorem C10_full_accumulation_overshoot (s : Net) (svc : ℕ → ℚ) (e : Event)
    (hk : e.station_id < s.stations.length)
    (hav : (s.getSt e.station_id).servers_busy < (s.getSt e.station_id).num_servers) :
    ((s.process_arrival svc e).getSt e.station_id).total_service_time =
      (s.getSt e.station_id).total_service_time +
        (s.getSt e.station_id).mean_service_time * svc s.svc_idx ∧
    (demoRunBig.1.getSt 1).utilization = 5 ∧
    1 < (demoRunBig.1.getSt 1).utilization := by
  refine ⟨?_, by with_unfolding_all decide, by with_unfolding_all decide⟩
  obtain ⟨h, rest, hq⟩ :
      ∃ h rest, (s.getSt e.station_id).queue ++ [e.job_id] = h :: rest := by
    cases hc : (s.getSt e.station_id).queue with
    | nil => exact ⟨e.job_id, [], rfl⟩
    | cons a l => exact ⟨a, l ++ [e.job_id], rfl⟩
  rw [process_arrival_serve s svc e h rest hq hav]
  unfold arrServe
  dsimp only [Net.setSt]
  show ((s.stations.set e.station_id _).getD e.station_id dStation).total_service_time = _
  rw [getDSetSelf _ _ _ _ (by simpa using hk)]
  dsimp only
  rw [atq_tst, atq_mean]

theorem C10_full_accumulation_overshoot_witness :
    ((Event.mk 0 EventType.arrival 0 0).station_id < demoNet.stations.length ∧
     (demoNet.getSt (Event.mk 0 EventType.arrival 0 0).station_id).servers_busy <
       (demoNet.getSt (Event.mk 0 EventType.arrival 0 0).station_id).num_servers) ∧
    (((demoNet.process_arrival svcOne (Event.mk 0 EventType.arrival 0 0)).getSt
        (Event.mk 0 EventType.arrival 0 0).station_id).total_service_time =
      (demoNet.getSt (Event.mk 0 EventType.arrival 0 0).station_id).total_service_time +
        (demoNet.getSt (Event.mk 0 EventType.arrival 0 0).station_id).mean_service_time *
          svcOne demoNet.svc_idx ∧
    (demoRunBig.1.getSt 1).utilization = 5 ∧
    1 < (demoRunBig.1.getSt 1).utilization) :=
  ⟨⟨by with_unfolding_all decide, by with_unfolding_all decide⟩,
    C10_full_accumulation_overshoot demoNet svcOne (Event.mk 0 EventType.arrival 0 0)
      (by with_unfolding_all decide) (by with_unfolding_all decide)⟩

/-! popMin facts: the popped event is a minimum and the rest is the
remainder of the queue up to permutation. -/

theorem popMin_none (l : List Event) (h : popMin l = none) : l = [] := by
  cases l with
  | nil => rfl
  | cons a es =>
      unfold popMin at h
      cases hm : popMin es with
      | none => rw [hm] at h; cases h
      | some p =>
          obtain ⟨m, r0⟩ := p
          rw [hm] at h
          dsimp only at h
          by_cases hlt : m.time < a.time
          · rw [if_pos hlt] at h; cases h
          · rw [if_neg hlt] at h; cases h

theorem popMin_isSome (l : List Event) (h : l ≠ []) :
    ∃ e r, popMin l = some (e, r) := by
  cases hm : popMin l with
  | none => exact absurd (popMin_none l hm) h
  | some p => exact ⟨p.1, p.2, rfl⟩

theorem popMin_perm (l : List Event) (e : Event) (r : List Event)
    (h : popMin l = some (e, r)) : l.Perm (e :: r) := by
  induction l generalizing e r with
  | nil => cases h
  | cons a es ih =>
      unfold popMin at h
      cases hm : popMin es with
      | none =>
          rw [hm] at h
          dsimp only at h
          cases h
          exact List.Perm.refl _
      | some p =>
          obtain ⟨m, r0⟩ := p
          rw [hm] at h
          dsimp only at h
          by_cases hlt : m.time < a.time
          · rw [if_pos hlt] at h
            cases h
            have hp := ih _ _ hm
            exact (hp.cons a).trans (List.Perm.swap _ _ _)
          · rw [if_neg hlt] at h
            cases h
            exact List.Perm.refl _

theorem popMin_le (l : List Event) (e : Event) (r : List Event)
    (h : popMin l = some (e, r)) : ∀ x ∈ l, e.time ≤ x.time := by
  induction l generalizing e r with
  | nil => cases h
  | cons a es ih =>
      unfold popMin at h
      cases hm : popMin es with
      | none =>
          rw [hm] at h
          dsimp only at h
          cases h
          have hes := popMin_none es hm
          intro x hx
          rcases List.mem_cons.1 hx with rfl | hx2
          · exact le_refl _
          · rw [hes] at hx2
            cases hx2
      | some p =>
          obtain ⟨m, r0⟩ := p
          rw [hm] at h
          dsimp only at h
          by_cases hlt : m.time < a.time
          · rw [if_pos hlt] at h
            cases h
            intro x hx
            rcases List.mem_cons.1 hx with rfl | hx2
            · exact le_of_lt hlt
            · exact ih _ _ hm x hx2
          · rw [if_neg hlt] at h
            cases h
            intro x hx
            rcases List.mem_cons.1 hx with rfl | hx2
            · exact le_refl _
            · exact le_trans (not_lt.1 hlt) (ih _ _ hm x hx2)

/-! Counting helpers for pending events and queues. -/

theorem cntArr_append (q : List Event) (ev : Event) (j : ℕ) :
    cntArr (q ++ [ev]) j = cntArr q j +
      (if ev.event_type = EventType.arrival ∧ ev.job_id = j then 1 else 0) := by
  unfold cntArr
  rw [List.countP_append]
  simp [List.countP_cons]

theorem cntDep_append (q : List Event) (ev : Event) (j : ℕ) :
    cntDep (q ++ [ev]) j = cntDep q j +
      (if ev.event_type = EventType.departure ∧ ev.job_id = j then 1 else 0) := by
  unfold cntDep
  rw [List.countP_append]
  simp [List.countP_cons]

theorem cntDepAt_append (q : List Event) (ev : Event) (i : ℕ) :
    cntDepAt (q ++ [ev]) i = cntDepAt q i +
      (if ev.event_type = EventType.departure ∧ ev.station_id = i then 1 else 0) := by
  unfold cntDepAt
  rw [List.countP_append]
  simp [List.countP_cons]

theorem cntArr_cons (q : List Event) (ev : Event) (j : ℕ) :
    cntArr (ev :: q) j = cntArr q j +
      (if ev.event_type = EventType.arrival ∧ ev.job_id = j then 1 else 0) := by
  unfold cntArr
  simp [List.countP_cons]

theorem cntDep_cons (q : List Event) (ev : Event) (j : ℕ) :
    cntDep (ev :: q) j = cntDep q j +
      (if ev.event_type = EventType.departure ∧ ev.job_id = j then 1 else 0) := by
  unfold cntDep
  simp [List.countP_cons]

theorem cntDepAt_cons (q : List Event) (ev : Event) (i : ℕ) :
    cntDepAt (ev :: q) i = cntDepAt q i +
      (if ev.event_type = EventType.departure ∧ ev.station_id = i then 1 else 0) := by
  unfold cntDepAt
  simp [List.countP_cons]

theorem cntArr_perm (l l' : List Event) (j : ℕ) (h : l.Perm l') :
    cntArr l j = cntArr l' j := h.countP_eq _

theorem cntDep_perm (l l' : List Event) (j : ℕ) (h : l.Perm l') :
    cntDep l j = cntDep l' j := h.countP_eq _

theorem cntDepAt_perm (l l' : List Event) (i : ℕ) (h : l.Perm l') :
    cntDepAt l i = cntDepAt l' i := h.countP_eq _

theorem cntArr_zero_not_mem (q : List Event) (j : ℕ) (h : cntArr q j = 0) :
    ∀ ev ∈ q, ev.event_type = EventType.arrival → ev.job_id ≠ j := by
  intro ev hev ht hj
  have hp : 0 < cntArr q j := by
    unfold cntArr
    rw [List.countP_pos_iff]
    exact ⟨ev, hev, by simp [ht, hj]⟩
  omega

/-- Splitting a station-indexed sum at one updated station. -/
theorem sumSt_set {β : Type} [AddCommMonoid β] (s : Net) (k : ℕ) (st' : Station)
    (hk : k < s.stations.length) (g : Station → β) :
    (∑ i in Finset.range s.stations.length, g ((s.setSt k st').getSt i)) + g (s.getSt k) =
    (∑ i in Finset.range s.stations.length, g (s.getSt i)) + g st' := by
  have hmem : k ∈ Finset.range s.stations.length := Finset.mem_range.2 hk
  rw [Finset.sum_eq_sum_diff_singleton_add hmem (fun i => g ((s.setSt k st').getSt i)),
      Finset.sum_eq_sum_diff_singleton_add hmem (fun i => g (s.getSt i))]
  have hcongr : ∀ i ∈ Finset.range s.stations.length \ {k},
      g ((s.setSt k st').getSt i) = g (s.getSt i) := by
    intro i hi
    rcases Finset.mem_sdiff.1 hi with ⟨_, hne⟩
    rw [getSt_setSt_ne s k i st' (fun hc => hne (by simp [hc]))]
  rw [Finset.sum_congr rfl hcongr, getSt_setSt_self s k st' hk]
  abel

theorem qCount_setSt (s : Net) (k : ℕ) (st' : Station) (j : ℕ)
    (hk : k < s.stations.length) :
    qCount (s.setSt k st') j + (s.getSt k).queue.count j =
    qCount s j + st'.queue.count j := by
  have h := sumSt_set s k st' hk (fun st => st.queue.count j)
  unfold qCount
  rw [setSt_len]
  exact h

/-! From the reachable-state invariant to the mid-step invariant. -/

theorem ind_split (e : Event) (j : ℕ) :
    (if e.event_type = EventType.arrival ∧ e.job_id = j then 1 else 0) +
      (if e.event_type = EventType.departure ∧ e.job_id = j then 1 else 0) =
    (if e.job_id = j then (1 : ℕ) else 0) := by
  cases he : e.event_type <;> by_cases hj : e.job_id = j <;> simp [he, hj]

theorem simInv_to_mid (s : Net) (e : Event) (rest : List Event)
    (hpop : popMin s.event_queue = some (e, rest)) (inv : SimInv s) :
    MidInv { s with event_queue := rest, current_time := e.time } e := by
  have hperm := popMin_perm _ _ _ hpop
  have hemem : e ∈ s.event_queue := hperm.mem_iff.2 (List.mem_cons_self _ _)
  have hsub : ∀ x ∈ rest, x ∈ s.event_queue :=
    fun x hx => hperm.mem_iff.2 (List.mem_cons_of_mem _ hx)
  have hle := popMin_le _ _ _ hpop
  have harr : ∀ j, cntArr s.event_queue j = cntArr rest j +
      (if e.event_type = EventType.arrival ∧ e.job_id = j then 1 else 0) := by
    intro j
    rw [cntArr_perm _ _ j hperm, cntArr_cons]
  have hdep : ∀ j, cntDep s.event_queue j = cntDep rest j +
      (if e.event_type = EventType.departure ∧ e.job_id = j then 1 else 0) := by
    intro j
    rw [cntDep_perm _ _ j hperm, cntDep_cons]
  have hdepAt : ∀ i, cntDepAt s.event_queue i = cntDepAt rest i +
      (if e.event_type = EventType.departure ∧ e.station_id = i then 1 else 0) := by
    intro i
    rw [cntDepAt_perm _ _ i hperm, cntDepAt_cons]
  refine ⟨inv.st_len, inv.st_pos, inv.mean_nonneg,
    fun ev hev => inv.ev_station ev (hsub ev hev),
    fun ev hev => inv.ev_job ev (hsub ev hev),
    inv.q_job, inv.transit_job,
    inv.ev_station e hemem, inv.ev_job e hemem, ?_, ?_, ?_,
    fun ev hev => inv.fresh_time ev (hsub ev hev),
    inv.fresh_time e hemem,
    fun ev hev => hle ev (hsub ev hev), rfl⟩
  · intro i hi
    dsimp only at hi ⊢
    have hgs : Net.getSt { s with event_queue := rest, current_time := e.time } i =
        s.getSt i := rfl
    rw [hgs, inv.busy_eq i hi, hdepAt i]
    split_ifs <;> push_cast <;> ring
  · intro j hj
    dsimp only at hj ⊢
    have hq : qCount { s with event_queue := rest, current_time := e.time } j =
        qCount s j := rfl
    rw [hq]
    have ht := inv.token j hj
    rw [harr j, hdep j] at ht
    have hs := ind_split e j
    omega
  · intro j hjt
    dsimp only at hjt ⊢
    have ht := inv.transit_arr j hjt
    rw [harr j] at ht
    exact ht

theorem midInv_transfer (a b : Net) (e : Event)
    (hnj : b.num_jobs = a.num_jobs)
    (hns : b.num_stations = a.num_stations)
    (hlen : b.stations.length = a.stations.length)
    (hget : ∀ i, (b.getSt i).queue = (a.getSt i).queue ∧
      (b.getSt i).servers_busy = (a.getSt i).servers_busy ∧
      (b.getSt i).mean_service_time = (a.getSt i).mean_service_time)
    (hev : b.event_queue = a.event_queue)
    (hct : b.current_time = a.current_time)
    (htr : b.jobs_in_transit = a.jobs_in_transit)
    (h : MidInv a e) : MidInv b e := by
  have hq : ∀ j, qCount b j = qCount a j := by
    intro j
    unfold qCount
    rw [hlen]
    exact Finset.sum_congr rfl fun i _ => by rw [(hget i).1]
  refine ⟨?_, ?_, ?_, ?_, ?_, ?_, ?_, ?_, ?_, ?_, ?_, ?_, ?_, ?_, ?_, ?_⟩
  · rw [hns, hlen]
    exact h.st_len
  · rw [hlen]
    exact h.st_pos
  · intro i
    rw [(hget i).2.2]
    exact h.mean_nonneg i
  · intro ev hv
    rw [hev] at hv
    rw [hlen]
    exact h.ev_station ev hv
  · intro ev hv
    rw [hev] at hv
    rw [hnj]
    exact h.ev_job ev hv
  · intro i j hj
    rw [(hget i).1] at hj
    rw [hnj]
    exact h.q_job i j hj
  · intro j hj
    rw [htr] at hj
    rw [hnj]
    exact h.transit_job j hj
  · rw [hlen]
    exact h.e_station
  · rw [hnj]
    exact h.e_job
  · intro i hi
    rw [hlen] at hi
    rw [(hget i).2.1, hev]
    exact h.busy_eq i hi
  · intro j hj
    rw [hnj] at hj
    rw [hev, hq j]
    exact h.token j hj
  · intro j hj
    rw [htr] at hj
    rw [hev]
    exact h.transit_arr j hj
  · intro ev h1 h2 h3
    rw [hev] at h1
    rw [htr] at h3
    exact h.fresh_time ev h1 h2 h3
  · intro h1 h2
    rw [htr] at h2
    exact h.e_fresh h1 h2
  · intro ev h1
    rw [hev] at h1
    rw [hct]
    exact h.time_ge ev h1
  · rw [hct]
    exact h.e_time

theorem midInv_reset (m : Net) (e : Event) (h : MidInv m e) :
    MidInv { m.reset_statistics with warmup_done := true } e := by
  have hlen : ({ m.reset_statistics with warmup_done := true } : Net).stations.length =
      m.stations.length := by
    show (m.stations.map _).length = _
    rw [List.length_map]
  refine midInv_transfer m _ e rfl rfl hlen ?_ rfl rfl rfl h
  intro i
  by_cases hi : i < m.stations.length
  · have hr : ({ m.reset_statistics with warmup_done := true } : Net).getSt i =
        m.reset_statistics.getSt i := rfl
    rw [hr, reset_getSt m i hi]
    exact ⟨rfl, rfl, rfl⟩
  · have h1 : ({ m.reset_statistics with warmup_done := true } : Net).getSt i = dStation := by
      unfold Net.getSt
      refine getDOfLe _ _ _ ?_
      rw [show ({ m.reset_statistics with warmup_done := true } : Net).stations.length =
        m.stations.length from hlen]
      exact Nat.le_of_not_lt hi
    have h2 : m.getSt i = dStation := by
      unfold Net.getSt
      exact getDOfLe _ _ _ (Nat.le_of_not_lt hi)
    rw [h1, h2]
    exact ⟨rfl, rfl, rfl⟩

theorem countSingleton (a b : ℕ) : ([a] : List ℕ).count b = if b = a then 1 else 0 := by
  by_cases h : b = a
  · simp [h]
  · simp [List.count_singleton', h]

theorem countAppend (l : List ℕ) (a b : ℕ) :
    (l ++ [a]).count b = l.count b + (if b = a then 1 else 0) := by
  rw [List.count_append, countSingleton]

theorem indComm (a b : ℕ) : (if a = b then (1 : ℕ) else 0) = if b = a then 1 else 0 := by
  by_cases h : a = b
  · rw [if_pos h, if_pos h.symm]
  · rw [if_neg h, if_neg (fun hc => h hc.symm)]

theorem process_arrival_cases (s : Net) (svc : ℕ → ℚ) (e : Event) :
    s.process_arrival svc e = arrNoServe s e ∨
    ∃ hd rest, (s.getSt e.station_id).queue ++ [e.job_id] = hd :: rest ∧
      (s.getSt e.station_id).servers_busy < (s.getSt e.station_id).num_servers ∧
      s.process_arrival svc e = arrServe s svc e hd rest := by
  by_cases hav : (s.getSt e.station_id).servers_busy < (s.getSt e.station_id).num_servers
  · right
    obtain ⟨hd, rest, hq⟩ :
        ∃ hd rest, (s.getSt e.station_id).queue ++ [e.job_id] = hd :: rest := by
      cases hc : (s.getSt e.station_id).queue with
      | nil => exact ⟨e.job_id, [], rfl⟩
      | cons a l => exact ⟨a, l ++ [e.job_id], rfl⟩
    exact ⟨hd, rest, hq, hav, process_arrival_serve s svc e hd rest hq hav⟩
  · exact Or.inl (process_arrival_no_serve s svc e hav)

theorem process_departure_cases (s : Net) (svc : ℕ → ℚ) (rt : ℕ → ℕ) (e : Event) :
    ((s.getSt e.station_id).queue = [] ∨
      ¬ (s.getSt e.station_id).servers_busy - 1 < (s.getSt e.station_id).num_servers) ∧
      s.process_departure svc rt e = depNoServe s rt e ∨
    ∃ hd rest, (s.getSt e.station_id).queue = hd :: rest ∧
      (s.getSt e.station_id).servers_busy - 1 < (s.getSt e.station_id).num_servers ∧
      s.process_departure svc rt e = depServe s svc rt e hd rest := by
  cases hq : (s.getSt e.station_id).queue with
  | nil => exact Or.inl ⟨Or.inl rfl, process_departure_no_serve s svc rt e hq⟩
  | cons hd rest =>
      by_cases ha : (s.getSt e.station_id).servers_busy - 1 < (s.getSt e.station_id).num_servers
      · exact Or.inr ⟨hd, rest, rfl, ha, process_departure_serve s svc rt e hd rest hq ha⟩
      · exact Or.inl ⟨Or.inr ha, process_departure_stuck s svc rt e hd rest hq ha⟩

theorem notDepOfArr (e : Event) (he : e.event_type = EventType.arrival) :
    ∀ i, ¬ (e.event_type = EventType.departure ∧ e.station_id = i) := by
  intro i hc
  rw [he] at hc
  exact EventType.noConfusion hc.1

theorem notDepJobOfArr (e : Event) (he : e.event_type = EventType.arrival) :
    ∀ j, ¬ (e.event_type = EventType.departure ∧ e.job_id = j) := by
  intro j hc
  rw [he] at hc
  exact EventType.noConfusion hc.1

theorem notArrOfDep (e : Event) (he : e.event_type = EventType.departure) :
    ∀ j, ¬ (e.event_type = EventType.arrival ∧ e.job_id = j) := by
  intro j hc
  rw [he] at hc
  exact EventType.noConfusion hc.1

theorem simInv_arrNoServe (m : Net) (e : Event)
    (h : MidInv m e) (he : e.event_type = EventType.arrival) :
    SimInv (arrNoServe m e) := by
  have hk := h.e_station
  have hGetK : (arrNoServe m e).getSt e.station_id =
      (m.getSt e.station_id).add_to_queue e.job_id m.current_time := by
    show (m.stations.set e.station_id _).getD e.station_id dStation = _
    exact getDSetSelf _ _ _ _ hk
  have hGetNe : ∀ i, i ≠ e.station_id → (arrNoServe m e).getSt i = m.getSt i := by
    intro i hi
    show (m.stations.set e.station_id _).getD i dStation = _
    exact getDSetNe _ _ _ _ _ (fun hc => hi hc.symm)
  have hLen : (arrNoServe m e).stations.length = m.stations.length := by
    show (m.stations.set _ _).length = _
    rw [List.length_set]
  have hQC : ∀ j, qCount (arrNoServe m e) j + (m.getSt e.station_id).queue.count j =
      qCount m j + ((m.getSt e.station_id).queue ++ [e.job_id]).count j := by
    intro j
    have hq0 : qCount (arrNoServe m e) j =
        qCount (m.setSt e.station_id
          ((m.getSt e.station_id).add_to_queue e.job_id m.current_time)) j := rfl
    rw [hq0]
    have h2 := qCount_setSt m e.station_id
      ((m.getSt e.station_id).add_to_queue e.job_id m.current_time) j hk
    rw [atq_queue] at h2
    exact h2
  refine ⟨?_, ?_, ?_, ?_, ?_, ?_, ?_, ?_, ?_, ?_, ?_, ?_⟩
  · show m.num_stations = (arrNoServe m e).stations.length
    rw [hLen]
    exact h.st_len
  · show 0 < (arrNoServe m e).stations.length
    rw [hLen]
    exact h.st_pos
  · intro i
    by_cases hik : i = e.station_id
    · subst hik
      rw [hGetK, atq_mean]
      exact h.mean_nonneg e.station_id
    · rw [hGetNe i hik]
      exact h.mean_nonneg i
  · intro ev hev
    show ev.station_id < (arrNoServe m e).stations.length
    rw [hLen]
    exact h.ev_station ev hev
  · intro ev hev
    exact h.ev_job ev hev
  · intro i j hj
    by_cases hik : i = e.station_id
    · subst hik
      rw [hGetK, atq_queue] at hj
      rcases List.mem_append.1 hj with h1 | h1
      · exact h.q_job e.station_id j h1
      · rcases List.mem_singleton.1 h1 with rfl
        exact h.e_job
    · rw [hGetNe i hik] at hj
      exact h.q_job i j hj
  · intro j hj
    exact h.transit_job j (Finset.mem_of_mem_erase hj)
  · intro i hi
    have hi2 : i < m.stations.length := by rw [hLen] at hi; exact hi
    have hb := h.busy_eq i hi2
    rw [if_neg (notDepOfArr e he i)] at hb
    by_cases hik : i = e.station_id
    · subst hik
      rw [hGetK, atq_busy]
      show (m.getSt e.station_id).servers_busy =
        (cntDepAt m.event_queue e.station_id : ℤ)
      omega
    · rw [hGetNe i hik]
      show (m.getSt i).servers_busy = (cntDepAt m.event_queue i : ℤ)
      omega
  · intro j hj
    have ht := h.token j hj
    rw [indComm e.job_id j] at ht
    have hc := hQC j
    rw [countAppend] at hc
    show cntArr m.event_queue j + cntDep m.event_queue j + qCount (arrNoServe m e) j = 1
    omega
  · intro j hjt
    rcases Finset.mem_erase.1 hjt with ⟨hne, hmem⟩
    have ht := h.transit_arr j hmem
    rw [if_neg (fun hc => hne hc.2.symm)] at ht
    show cntArr m.event_queue j = 1
    omega
  · intro ev hev htype hnmem
    by_cases hmem : ev.job_id ∈ m.jobs_in_transit
    · have hjid : ev.job_id = e.job_id := by
        by_contra hne
        exact hnmem (Finset.mem_erase.2 ⟨hne, hmem⟩)
      have ht := h.token e.job_id h.e_job
      rw [if_pos rfl] at ht
      have hA : cntArr m.event_queue e.job_id = 0 := by omega
      exact absurd hjid (cntArr_zero_not_mem _ _ hA ev hev htype)
    · exact h.fresh_time ev hev htype hmem
  · intro ev hev
    exact h.time_ge ev hev

theorem qCount_of_bridges (r m : Net) (k : ℕ) (hk : k < m.stations.length)
    (hLen : r.stations.length = m.stations.length)
    (hNe : ∀ i, i ≠ k → r.getSt i = m.getSt i) (j : ℕ) :
    qCount r j + (m.getSt k).queue.count j =
    qCount m j + (r.getSt k).queue.count j := by
  unfold qCount
  rw [hLen]
  have hmem : k ∈ Finset.range m.stations.length := Finset.mem_range.2 hk
  rw [Finset.sum_eq_sum_diff_singleton_add hmem (fun i => (r.getSt i).queue.count j),
      Finset.sum_eq_sum_diff_singleton_add hmem (fun i => (m.getSt i).queue.count j)]
  have hcongr : ∀ i ∈ Finset.range m.stations.length \ {k},
      (r.getSt i).queue.count j = (m.getSt i).queue.count j := by
    intro i hi
    rcases Finset.mem_sdiff.1 hi with ⟨_, hne⟩
    rw [hNe i (by simpa using hne)]
  rw [Finset.sum_congr rfl hcongr]
  omega

theorem simInv_arrServe (m : Net) (svc : ℕ → ℚ) (e : Event) (hd : ℕ) (rest' : List ℕ)
    (hsvc : ∀ n, 0 ≤ svc n)
    (h : MidInv m e) (he : e.event_type = EventType.arrival)
    (hq : (m.getSt e.station_id).queue ++ [e.job_id] = hd :: rest') :
    SimInv (arrServe m svc e hd rest') := by
  have hk := h.e_station
  have hLen : (arrServe m svc e hd rest').stations.length = m.stations.length := by
    show (m.stations.set _ _).length = _
    rw [List.length_set]
  have hK_queue : ((arrServe m svc e hd rest').getSt e.station_id).queue = rest' := by
    show ((m.stations.set e.station_id _).getD e.station_id dStation).queue = _
    rw [getDSetSelf _ _ _ _ hk]
  have hK_busy : ((arrServe m svc e hd rest').getSt e.station_id).servers_busy =
      (m.getSt e.station_id).servers_busy + 1 := by
    show ((m.stations.set e.station_id _).getD e.station_id dStation).servers_busy = _
    rw [getDSetSelf _ _ _ _ hk]
    show ((m.getSt e.station_id).add_to_queue e.job_id m.current_time).servers_busy + 1 = _
    rw [atq_busy]
  have hK_mean : ((arrServe m svc e hd rest').getSt e.station_id).mean_service_time =
      (m.getSt e.station_id).mean_service_time := by
    show ((m.stations.set e.station_id _).getD e.station_id dStation).mean_service_time = _
    rw [getDSetSelf _ _ _ _ hk]
    show ((m.getSt e.station_id).add_to_queue e.job_id m.current_time).mean_service_time = _
    rw [atq_mean]
  have hGetNe : ∀ i, i ≠ e.station_id →
      (arrServe m svc e hd rest').getSt i = m.getSt i := by
    intro i hi
    show (m.stations.set e.station_id _).getD i dStation = _
    exact getDSetNe _ _ _ _ _ (fun hc => hi hc.symm)
  have hEv : (arrServe m svc e hd rest').event_queue = m.event_queue ++
      [{ time := m.current_time +
           ((m.getSt e.station_id).add_to_queue e.job_id m.current_time).mean_service_time *
             svc m.svc_idx
         event_type := EventType.departure
         job_id := hd
         station_id := e.station_id }] := rfl
  rw [atq_mean] at hEv
  have hdmem : hd ∈ (m.getSt e.station_id).queue ++ [e.job_id] := by
    rw [hq]
    exact List.mem_cons_self _ _
  have hdnj : hd < m.num_jobs.toNat := by
    rcases List.mem_append.1 hdmem with h1 | h1
    · exact h.q_job e.station_id hd h1
    · rcases List.mem_singleton.1 h1 with rfl
      exact h.e_job
  have hQC : ∀ j, qCount (arrServe m svc e hd rest') j +
      (m.getSt e.station_id).queue.count j = qCount m j + rest'.count j := by
    intro j
    have h2 := qCount_of_bridges (arrServe m svc e hd rest') m e.station_id hk hLen hGetNe j
    rw [hK_queue] at h2
    exact h2
  have hcnt : ∀ j, (m.getSt e.station_id).queue.count j +
      (if j = e.job_id then 1 else 0) = rest'.count j + (if j = hd then 1 else 0) := by
    intro j
    have h3 := congrArg (List.count j) hq
    rw [countAppend] at h3
    simp only [List.count_cons, beq_iff_eq] at h3
    rw [indComm hd j] at h3
    omega
  have hA : ∀ j, cntArr (arrServe m svc e hd rest').event_queue j =
      cntArr m.event_queue j := by
    intro j
    rw [hEv, cntArr_append]
    simp
  have hD : ∀ j, cntDep (arrServe m svc e hd rest').event_queue j =
      cntDep m.event_queue j + (if j = hd then 1 else 0) := by
    intro j
    rw [hEv, cntDep_append]
    simp [indComm hd j]
  have hDA : ∀ i, cntDepAt (arrServe m svc e hd rest').event_queue i =
      cntDepAt m.event_queue i + (if e.station_id = i then 1 else 0) := by
    intro i
    rw [hEv, cntDepAt_append]
    simp
  refine ⟨?_, ?_, ?_, ?_, ?_, ?_, ?_, ?_, ?_, ?_, ?_, ?_⟩
  · show m.num_stations = (arrServe m svc e hd rest').stations.length
    rw [hLen]
    exact h.st_len
  · show 0 < (arrServe m svc e hd rest').stations.length
    rw [hLen]
    exact h.st_pos
  · intro i
    by_cases hik : i = e.station_id
    · subst hik
      rw [hK_mean]
      exact h.mean_nonneg e.station_id
    · rw [hGetNe i hik]
      exact h.mean_nonneg i
  · intro ev hev
    rw [hEv] at hev
    show ev.station_id < (arrServe m svc e hd rest').stations.length
    rw [hLen]
    rcases List.mem_append.1 hev with h1 | h1
    · exact h.ev_station ev h1
    · rcases List.mem_singleton.1 h1 with rfl
      exact hk
  · intro ev hev
    rw [hEv] at hev
    rcases List.mem_append.1 hev with h1 | h1
    · exact h.ev_job ev h1
    · rcases List.mem_singleton.1 h1 with rfl
      exact hdnj
  · intro i j hj
    by_cases hik : i = e.station_id
    · subst hik
      rw [hK_queue] at hj
      have hj2 : j ∈ (m.getSt e.station_id).queue ++ [e.job_id] := by
        rw [hq]
        exact List.mem_cons_of_mem _ hj
      rcases List.mem_append.1 hj2 with h1 | h1
      · exact h.q_job e.station_id j h1
      · rcases List.mem_singleton.1 h1 with rfl
        exact h.e_job
    · rw [hGetNe i hik] at hj
      exact h.q_job i j hj
  · intro j hj
    exact h.transit_job j (Finset.mem_of_mem_erase hj)
  · intro i hi
    have hi2 : i < m.stations.length := by rw [hLen] at hi; exact hi
    have hb := h.busy_eq i hi2
    rw [if_neg (notDepOfArr e he i)] at hb
    have hda := hDA i
    by_cases hik : i = e.station_id
    · subst hik
      rw [hK_busy]
      rw [if_pos rfl] at hda
      rw [hda]
      push_cast
      omega
    · rw [hGetNe i hik]
      rw [if_neg (fun hc => hik hc.symm)] at hda
      rw [hda]
      omega
  · intro j hj
    have ht := h.token j hj
    rw [indComm e.job_id j] at ht
    have h1 := hQC j
    have h2 := hcnt j
    have h3 := hA j
    have h4 := hD j
    show cntArr (arrServe m svc e hd rest').event_queue j +
      cntDep (arrServe m svc e hd rest').event_queue j +
      qCount (arrServe m svc e hd rest') j = 1
    omega
  · intro j hjt
    rcases Finset.mem_erase.1 hjt with ⟨hne, hmem⟩
    have ht := h.transit_arr j hmem
    rw [if_neg (fun hc => hne hc.2.symm)] at ht
    show cntArr (arrServe m svc e hd rest').event_queue j = 1
    rw [hA j]
    omega
  · intro ev hev htype hnmem
    rw [hEv] at hev
    rcases List.mem_append.1 hev with h1 | h1
    · by_cases hmem : ev.job_id ∈ m.jobs_in_transit
      · have hjid : ev.job_id = e.job_id := by
          by_contra hne
          exact hnmem (Finset.mem_erase.2 ⟨hne, hmem⟩)
        have ht := h.token e.job_id h.e_job
        rw [if_pos rfl] at ht
        have hZ : cntArr m.event_queue e.job_id = 0 := by omega
        exact absurd hjid (cntArr_zero_not_mem _ _ hZ ev h1 htype)
      · exact h.fresh_time ev h1 htype hmem
    · rcases List.mem_singleton.1 h1 with rfl
      cases htype
  · intro ev hev
    rw [hEv] at hev
    show m.current_time ≤ ev.time
    rcases List.mem_append.1 hev with h1 | h1
    · exact h.time_ge ev h1
    · rcases List.mem_singleton.1 h1 with rfl
      have hnn : 0 ≤ (m.getSt e.station_id).mean_service_time * svc m.svc_idx :=
        mul_nonneg (h.mean_nonneg e.station_id) (hsvc _)
      show m.current_time ≤ m.current_time + _
      linarith

theorem simInv_depNoServe (m : Net) (rt : ℕ → ℕ) (e : Event)
    (h : MidInv m e) (he : e.event_type = EventType.departure) :
    SimInv (depNoServe m rt e) := by
  have hk := h.e_station
  have hLen : (depNoServe m rt e).stations.length = m.stations.length := by
    show (m.stations.set _ _).length = _
    rw [List.length_set]
  have hK_queue : ((depNoServe m rt e).getSt e.station_id).queue =
      (m.getSt e.station_id).queue := by
    show ((m.stations.set e.station_id _).getD e.station_id dStation).queue = _
    rw [getDSetSelf _ _ _ _ hk]
    exact cs_queue _ _
  have hK_busy : ((depNoServe m rt e).getSt e.station_id).servers_busy =
      (m.getSt e.station_id).servers_busy - 1 := by
    show ((m.stations.set e.station_id _).getD e.station_id dStation).servers_busy = _
    rw [getDSetSelf _ _ _ _ hk]
    exact cs_busy _ _
  have hK_mean : ((depNoServe m rt e).getSt e.station_id).mean_service_time =
      (m.getSt e.station_id).mean_service_time := by
    show ((m.stations.set e.station_id _).getD e.station_id dStation).mean_service_time = _
    rw [getDSetSelf _ _ _ _ hk]
    exact cs_mean _ _
  have hGetNe : ∀ i, i ≠ e.station_id → (depNoServe m rt e).getSt i = m.getSt i := by
    intro i hi
    show (m.stations.set e.station_id _).getD i dStation = _
    exact getDSetNe _ _ _ _ _ (fun hc => hi hc.symm)
  have hEv : (depNoServe m rt e).event_queue = m.event_queue ++
      [{ time := m.current_time, event_type := EventType.arrival
         job_id := e.job_id, station_id := rt m.route_idx % m.num_stations }] := rfl
  have hTr : (depNoServe m rt e).jobs_in_transit =
      insert e.job_id m.jobs_in_transit := rfl
  have htJ := h.token e.job_id h.e_job
  rw [if_pos rfl] at htJ
  have hJnotin : e.job_id ∉ m.jobs_in_transit := by
    intro hmem
    have ht := h.transit_arr e.job_id hmem
    rw [if_neg (notArrOfDep e he e.job_id)] at ht
    omega
  have hns : rt m.route_idx % m.num_stations < m.stations.length := by
    have h0 : 0 < m.num_stations := by
      rw [h.st_len]
      exact h.st_pos
    have h1 := Nat.mod_lt (rt m.route_idx) h0
    rw [h.st_len] at h0 h1 ⊢
    exact h1
  have hA : ∀ j, cntArr (depNoServe m rt e).event_queue j =
      cntArr m.event_queue j + (if j = e.job_id then 1 else 0) := by
    intro j
    rw [hEv, cntArr_append]
    simp [indComm e.job_id j]
  have hD : ∀ j, cntDep (depNoServe m rt e).event_queue j =
      cntDep m.event_queue j := by
    intro j
    rw [hEv, cntDep_append]
    simp
  have hDA : ∀ i, cntDepAt (depNoServe m rt e).event_queue i =
      cntDepAt m.event_queue i := by
    intro i
    rw [hEv, cntDepAt_append]
    simp
  have hQC : ∀ j, qCount (depNoServe m rt e) j = qCount m j := by
    intro j
    have h2 := qCount_of_bridges (depNoServe m rt e) m e.station_id hk hLen hGetNe j
    rw [hK_queue] at h2
    omega
  refine ⟨?_, ?_, ?_, ?_, ?_, ?_, ?_, ?_, ?_, ?_, ?_, ?_⟩
  · show m.num_stations = (depNoServe m rt e).stations.length
    rw [hLen]
    exact h.st_len
  · show 0 < (depNoServe m rt e).stations.length
    rw [hLen]
    exact h.st_pos
  · intro i
    by_cases hik : i = e.station_id
    · subst hik
      rw [hK_mean]
      exact h.mean_nonneg e.station_id
    · rw [hGetNe i hik]
      exact h.mean_nonneg i
  · intro ev hev
    rw [hEv] at hev
    show ev.station_id < (depNoServe m rt e).stations.length
    rw [hLen]
    rcases List.mem_append.1 hev with h1 | h1
    · exact h.ev_station ev h1
    · rcases List.mem_singleton.1 h1 with rfl
      exact hns
  · intro ev hev
    rw [hEv] at hev
    rcases List.mem_append.1 hev with h1 | h1
    · exact h.ev_job ev h1
    · rcases List.mem_singleton.1 h1 with rfl
      exact h.e_job
  · intro i j hj
    by_cases hik : i = e.station_id
    · subst hik
      rw [hK_queue] at hj
      exact h.q_job e.station_id j hj
    · rw [hGetNe i hik] at hj
      exact h.q_job i j hj
  · intro j hj
    rw [hTr] at hj
    rcases Finset.mem_insert.1 hj with rfl | hj2
    · exact h.e_job
    · exact h.transit_job j hj2
  · intro i hi
    have hi2 : i < m.stations.length := by rw [hLen] at hi; exact hi
    have hb := h.busy_eq i hi2
    by_cases hik : i = e.station_id
    · subst hik
      rw [if_pos ⟨he, rfl⟩] at hb
      rw [hK_busy, hDA]
      omega
    · rw [if_neg (fun hc => hik hc.2.symm)] at hb
      rw [hGetNe i hik, hDA]
      omega
  · intro j hj
    have ht := h.token j hj
    rw [indComm e.job_id j] at ht
    have h1 := hA j
    have h2 := hD j
    have h3 := hQC j
    show cntArr (depNoServe m rt e).event_queue j +
      cntDep (depNoServe m rt e).event_queue j + qCount (depNoServe m rt e) j = 1
    omega
  · intro j hjt
    rw [hTr] at hjt
    show cntArr (depNoServe m rt e).event_queue j = 1
    rw [hA j]
    rcases Finset.mem_insert.1 hjt with rfl | hj2
    · rw [if_pos rfl]
      omega
    · have hne : j ≠ e.job_id := fun hc => hJnotin (hc ▸ hj2)
      rw [if_neg hne]
      have ht := h.transit_arr j hj2
      rw [if_neg (notArrOfDep e he j)] at ht
      omega
  · intro ev hev htype hnmem
    rw [hTr] at hnmem
    rw [hEv] at hev
    rcases List.mem_append.1 hev with h1 | h1
    · have hnm2 : ev.job_id ∉ m.jobs_in_transit :=
        fun hm => hnmem (Finset.mem_insert_of_mem hm)
      exact h.fresh_time ev h1 htype hnm2
    · rcases List.mem_singleton.1 h1 with rfl
      exact absurd (Finset.mem_insert_self _ _) hnmem
  · intro ev hev
    rw [hEv] at hev
    show m.current_time ≤ ev.time
    rcases List.mem_append.1 hev with h1 | h1
    · exact h.time_ge ev h1
    · rcases List.mem_singleton.1 h1 with rfl
      exact le_refl _

theorem simInv_depServe (m : Net) (svc : ℕ → ℚ) (rt : ℕ → ℕ) (e : Event)
    (hd : ℕ) (rest' : List ℕ) (hsvc : ∀ n, 0 ≤ svc n)
    (h : MidInv m e) (he : e.event_type = EventType.departure)
    (hq : (m.getSt e.station_id).queue = hd :: rest') :
    SimInv (depServe m svc rt e hd rest') := by
  have hk := h.e_station
  have hLen : (depServe m svc rt e hd rest').stations.length = m.stations.length := by
    show (m.stations.set _ _).length = _
    rw [List.length_set]
  have hK_queue : ((depServe m svc rt e hd rest').getSt e.station_id).queue = rest' := by
    show ((m.stations.set e.station_id _).getD e.station_id dStation).queue = _
    rw [getDSetSelf _ _ _ _ hk]
  have hK_busy : ((depServe m svc rt e hd rest').getSt e.station_id).servers_busy =
      (m.getSt e.station_id).servers_busy - 1 + 1 := by
    show ((m.stations.set e.station_id _).getD e.station_id dStation).servers_busy = _
    rw [getDSetSelf _ _ _ _ hk]
    show ((m.getSt e.station_id).complete_service m.current_time).servers_busy + 1 = _
    rw [cs_busy]
  have hK_mean : ((depServe m svc rt e hd rest').getSt e.station_id).mean_service_time =
      (m.getSt e.station_id).mean_service_time := by
    show ((m.stations.set e.station_id _).getD e.station_id dStation).mean_service_time = _
    rw [getDSetSelf _ _ _ _ hk]
    show ((m.getSt e.station_id).complete_service m.current_time).mean_service_time = _
    rw [cs_mean]
  have hGetNe : ∀ i, i ≠ e.station_id →
      (depServe m svc rt e hd rest').getSt i = m.getSt i := by
    intro i hi
    show (m.stations.set e.station_id _).getD i dStation = _
    exact getDSetNe _ _ _ _ _ (fun hc => hi hc.symm)
  have hEv0 : (depServe m svc rt e hd rest').event_queue = m.event_queue ++
      [{ time := m.current_time +
           ((m.getSt e.station_id).complete_service m.current_time).mean_service_time *
             svc m.svc_idx
         event_type := EventType.departure, job_id := hd, station_id := e.station_id },
       { time := m.current_time, event_type := EventType.arrival
         job_id := e.job_id, station_id := rt m.route_idx % m.num_stations }] := rfl
  rw [cs_mean] at hEv0
  have hEv : (depServe m svc rt e hd rest').event_queue = (m.event_queue ++
      [{ time := m.current_time +
           (m.getSt e.station_id).mean_service_time * svc m.svc_idx
         event_type := EventType.departure, job_id := hd, station_id := e.station_id }]) ++
       [{ time := m.current_time, event_type := EventType.arrival
          job_id := e.job_id, station_id := rt m.route_idx % m.num_stations }] := by
    rw [hEv0]
    simp
  have hTr : (depServe m svc rt e hd rest').jobs_in_transit =
      insert e.job_id m.jobs_in_transit := rfl
  have htJ := h.token e.job_id h.e_job
  rw [if_pos rfl] at htJ
  have hJnotin : e.job_id ∉ m.jobs_in_transit := by
    intro hmem
    have ht := h.transit_arr e.job_id hmem
    rw [if_neg (notArrOfDep e he e.job_id)] at ht
    omega
  have hns : rt m.route_idx % m.num_stations < m.stations.length := by
    have h0 : 0 < m.num_stations := by
      rw [h.st_len]
      exact h.st_pos
    have h1 := Nat.mod_lt (rt m.route_idx) h0
    rw [h.st_len] at h0 h1 ⊢
    exact h1
  have hdmem : hd ∈ (m.getSt e.station_id).queue := by
    rw [hq]
    exact List.mem_cons_self _ _
  have hdnj : hd < m.num_jobs.toNat := h.q_job e.station_id hd hdmem
  have hA : ∀ j, cntArr (depServe m svc rt e hd rest').event_queue j =
      cntArr m.event_queue j + (if j = e.job_id then 1 else 0) := by
    intro j
    rw [hEv, cntArr_append, cntArr_append]
    simp [indComm e.job_id j]
  have hD : ∀ j, cntDep (depServe m svc rt e hd rest').event_queue j =
      cntDep m.event_queue j + (if j = hd then 1 else 0) := by
    intro j
    rw [hEv, cntDep_append, cntDep_append]
    simp [indComm hd j]
  have hDA : ∀ i, cntDepAt (depServe m svc rt e hd rest').event_queue i =
      cntDepAt m.event_queue i + (if e.station_id = i then 1 else 0) := by
    intro i
    rw [hEv, cntDepAt_append, cntDepAt_append]
    simp
  have hcnt : ∀ j, (m.getSt e.station_id).queue.count j =
      rest'.count j + (if j = hd then 1 else 0) := by
    intro j
    have h3 := congrArg (List.count j) hq
    simp only [List.count_cons, beq_iff_eq] at h3
    rw [indComm hd j] at h3
    omega
  have hQC : ∀ j, qCount (depServe m svc rt e hd rest') j +
      (m.getSt e.station_id).queue.count j = qCount m j + rest'.count j := by
    intro j
    have h2 := qCount_of_bridges (depServe m svc rt e hd rest') m e.station_id hk hLen hGetNe j
    rw [hK_queue] at h2
    exact h2
  refine ⟨?_, ?_, ?_, ?_, ?_, ?_, ?_, ?_, ?_, ?_, ?_, ?_⟩
  · show m.num_stations = (depServe m svc rt e hd rest').stations.length
    rw [hLen]
    exact h.st_len
  · show 0 < (depServe m svc rt e hd rest').stations.length
    rw [hLen]
    exact h.st_pos
  · intro i
    by_cases hik : i = e.station_id
    · subst hik
      rw [hK_mean]
      exact h.mean_nonneg e.station_id
    · rw [hGetNe i hik]
      exact h.mean_nonneg i
  · intro ev hev
    rw [hEv] at hev
    show ev.station_id < (depServe m svc rt e hd rest').stations.length
    rw [hLen]
    rcases List.mem_append.1 hev with h1 | h1
    · rcases List.mem_append.1 h1 with h2 | h2
      · exact h.ev_station ev h2
      · rcases List.mem_singleton.1 h2 with rfl
        exact hk
    · rcases List.mem_singleton.1 h1 with rfl
      exact hns
  · intro ev hev
    rw [hEv] at hev
    rcases List.mem_append.1 hev with h1 | h1
    · rcases List.mem_append.1 h1 with h2 | h2
      · exact h.ev_job ev h2
      · rcases List.mem_singleton.1 h2 with rfl
        exact hdnj
    · rcases List.mem_singleton.1 h1 with rfl
      exact h.e_job
  · intro i j hj
    by_cases hik : i = e.station_id
    · subst hik
      rw [hK_queue] at hj
      have hj2 : j ∈ (m.getSt e.station_id).queue := by
        rw [hq]
        exact List.mem_cons_of_mem _ hj
      exact h.q_job e.station_id j hj2
    · rw [hGetNe i hik] at hj
      exact h.q_job i j hj
  · intro j hj
    rw [hTr] at hj
    rcases Finset.mem_insert.1 hj with rfl | hj2
    · exact h.e_job
    · exact h.transit_job j hj2
  · intro i hi
    have hi2 : i < m.stations.length := by rw [hLen] at hi; exact hi
    have hb := h.busy_eq i hi2
    have hda := hDA i
    by_cases hik : i = e.station_id
    · subst hik
      rw [if_pos ⟨he, rfl⟩] at hb
      rw [if_pos rfl] at hda
      rw [hK_busy, hda]
      push_cast
      omega
    · rw [if_neg (fun hc => hik hc.2.symm)] at hb
      rw [if_neg (fun hc => hik hc.symm)] at hda
      rw [hGetNe i hik, hda]
      omega
  · intro j hj
    have ht := h.token j hj
    rw [indComm e.job_id j] at ht
    have h1 := hA j
    have h2 := hD j
    have h3 := hQC j
    have h4 := hcnt j
    show cntArr (depServe m svc rt e hd rest').event_queue j +
      cntDep (depServe m svc rt e hd rest').event_queue j +
      qCount (depServe m svc rt e hd rest') j = 1
    omega
  · intro j hjt
    rw [hTr] at hjt
    show cntArr (depServe m svc rt e hd rest').event_queue j = 1
    rw [hA j]
    rcases Finset.mem_insert.1 hjt with rfl | hj2
    · rw [if_pos rfl]
      omega
    · have hne : j ≠ e.job_id := fun hc => hJnotin (hc ▸ hj2)
      rw [if_neg hne]
      have ht := h.transit_arr j hj2
      rw [if_neg (notArrOfDep e he j)] at ht
      omega
  · intro ev hev htype hnmem
    rw [hTr] at hnmem
    rw [hEv] at hev
    rcases List.mem_append.1 hev with h1 | h1
    · rcases List.mem_append.1 h1 with h2 | h2
      · have hnm2 : ev.job_id ∉ m.jobs_in_transit :=
          fun hm => hnmem (Finset.mem_insert_of_mem hm)
        exact h.fresh_time ev h2 htype hnm2
      · rcases List.mem_singleton.1 h2 with rfl
        cases htype
    · rcases List.mem_singleton.1 h1 with rfl
      exact absurd (Finset.mem_insert_self _ _) hnmem
  · intro ev hev
    rw [hEv] at hev
    show m.current_time ≤ ev.time
    rcases List.mem_append.1 hev with h1 | h1
    · rcases List.mem_append.1 h1 with h2 | h2
      · exact h.time_ge ev h2
      · rcases List.mem_singleton.1 h2 with rfl
        have hnn : 0 ≤ (m.getSt e.station_id).mean_service_time * svc m.svc_idx :=
          mul_nonneg (h.mean_nonneg e.station_id) (hsvc _)
        show m.current_time ≤ m.current_time + _
        linarith
    · rcases List.mem_singleton.1 h1 with rfl
      exact le_refl _

theorem midInv_dispatch (m : Net) (svc : ℕ → ℚ) (rt : ℕ → ℕ) (e : Event)
    (hsvc : ∀ n, 0 ≤ svc n) (h : MidInv m e) : SimInv (m.dispatch svc rt e) := by
  unfold Net.dispatch
  cases he : e.event_type with
  | arrival =>
      rcases process_arrival_cases m svc e with hc | ⟨hd, rest', hq, _, hc⟩
      · rw [hc]
        exact simInv_arrNoServe m e h he
      · rw [hc]
        exact simInv_arrServe m svc e hd rest' hsvc h he hq
  | departure =>
      rcases process_departure_cases m svc rt e with ⟨_, hc⟩ | ⟨hd, rest', hq, _, hc⟩
      · rw [hc]
        exact simInv_depNoServe m rt e h he
      · rw [hc]
        exact simInv_depServe m svc rt e hd rest' hsvc h he hq

theorem simInv_stepPopped (svc : ℕ → ℚ) (rt : ℕ → ℕ) (warmup : ℚ) (s : Net)
    (e : Event) (rest : List Event) (hsvc : ∀ n, 0 ≤ svc n)
    (hpop : popMin s.event_queue = some (e, rest)) (inv : SimInv s) :
    SimInv (stepPopped svc rt warmup s e rest) := by
  have hmid := simInv_to_mid s e rest hpop inv
  unfold stepPopped
  dsimp only
  split
  · exact midInv_dispatch _ svc rt e hsvc (midInv_reset _ e hmid)
  · exact midInv_dispatch _ svc rt e hsvc hmid

theorem clock_dispatch (m : Net) (svc : ℕ → ℚ) (rt : ℕ → ℕ) (e : Event) :
    (m.dispatch svc rt e).current_time = m.current_time := by
  unfold Net.dispatch
  cases he : e.event_type with
  | arrival =>
      rcases process_arrival_cases m svc e with hc | ⟨hd, r', _, _, hc⟩ <;> rw [hc] <;> rfl
  | departure =>
      rcases process_departure_cases m svc rt e with ⟨_, hc⟩ | ⟨hd, r', _, _, hc⟩ <;>
        rw [hc] <;> rfl

theorem clock_stepPopped (svc : ℕ → ℚ) (rt : ℕ → ℕ) (warmup : ℚ) (s : Net)
    (e : Event) (rest : List Event) :
    (stepPopped svc rt warmup s e rest).current_time = e.time := by
  unfold stepPopped
  dsimp only
  split
  · rw [clock_dispatch]
    rfl
  · rw [clock_dispatch]

theorem simInv_runAux (svc : ℕ → ℚ) (rt : ℕ → ℕ) (horizon warmup : ℚ)
    (hsvc : ∀ n, 0 ≤ svc n) : ∀ (n : ℕ) (s : Net), SimInv s →
    SimInv (runAux svc rt horizon warmup n s).1 ∧
    s.current_time ≤ (runAux svc rt horizon warmup n s).1.current_time := by
  intro n
  induction n with
  | zero => exact fun s h => ⟨h, le_refl _⟩
  | succ k ih =>
      intro s h
      unfold runAux
      split
      · rename_i hcond
        split
        · exact ⟨h, le_refl _⟩
        · rename_i e rest heq
          dsimp only
          have hstep := simInv_stepPopped svc rt warmup s e rest hsvc heq h
          obtain ⟨h1, h2⟩ := ih (stepPopped svc rt warmup s e rest) hstep
          refine ⟨h1, ?_⟩
          have hemem : e ∈ s.event_queue :=
            (popMin_perm _ _ _ heq).mem_iff.2 (List.mem_cons_self _ _)
          have h3 : s.current_time ≤ e.time := h.time_ge e hemem
          rw [clock_stepPopped] at h2
          exact le_trans h3 h2
      · exact ⟨h, le_refl _⟩

theorem runAux_stop (svc : ℕ → ℚ) (rt : ℕ → ℕ) (horizon warmup : ℚ) (n : ℕ) (s : Net)
    (h : ¬ (s.event_queue ≠ [] ∧ s.current_time < horizon)) :
    (runAux svc rt horizon warmup n s).1 = s := by
  cases n with
  | zero => rfl
  | succ k =>
      unfold runAux
      rw [if_neg h]

theorem runAux_cons (svc : ℕ → ℚ) (rt : ℕ → ℕ) (horizon warmup : ℚ) (n : ℕ) (s : Net)
    (e : Event) (rest : List Event)
    (hc : s.event_queue ≠ [] ∧ s.current_time < horizon)
    (hp : popMin s.event_queue = some (e, rest)) :
    (runAux svc rt horizon warmup (n + 1) s).1 =
      (runAux svc rt horizon warmup n (stepPopped svc rt warmup s e rest)).1 := by
  conv_lhs => rw [runAux]
  rw [if_pos hc, hp]

theorem runAux_succ_fst (svc : ℕ → ℚ) (rt : ℕ → ℕ) (horizon warmup : ℚ) :
    ∀ (n : ℕ) (s : Net),
    (runAux svc rt horizon warmup (n + 1) s).1 =
      loopStep svc rt horizon warmup (runAux svc rt horizon warmup n s).1 := by
  intro n
  induction n with
  | zero =>
      intro s
      by_cases hc : s.event_queue ≠ [] ∧ s.current_time < horizon
      · obtain ⟨e, rest, hp⟩ := popMin_isSome _ hc.1
        rw [runAux_cons svc rt horizon warmup 0 s e rest hc hp]
        show stepPopped svc rt warmup s e rest = loopStep svc rt horizon warmup s
        unfold loopStep
        rw [if_pos hc, hp]
      · rw [runAux_stop svc rt horizon warmup 1 s hc, runAux_stop svc rt horizon warmup 0 s hc]
        unfold loopStep
        rw [if_neg hc]
  | succ k ih =>
      intro s
      by_cases hc : s.event_queue ≠ [] ∧ s.current_time < horizon
      · obtain ⟨e, rest, hp⟩ := popMin_isSome _ hc.1
        rw [runAux_cons svc rt horizon warmup (k + 1) s e rest hc hp,
            ih (stepPopped svc rt warmup s e rest),
            runAux_cons svc rt horizon warmup k s e rest hc hp]
      · rw [runAux_stop svc rt horizon warmup (k + 1 + 1) s hc,
            runAux_stop svc rt horizon warmup (k + 1) s hc]
        unfold loopStep
        rw [if_neg hc]

theorem clock_loopStep (svc : ℕ → ℚ) (rt : ℕ → ℕ) (horizon warmup : ℚ) (s : Net)
    (inv : SimInv s) :
    s.current_time ≤ (loopStep svc rt horizon warmup s).current_time := by
  unfold loopStep
  split
  · split
    · exact le_refl _
    · rename_i e rest heq
      rw [clock_stepPopped]
      exact inv.time_ge e ((popMin_perm _ _ _ heq).mem_iff.2 (List.mem_cons_self _ _))
  · exact le_refl _

theorem cntArr_range_map (i0 : ℕ) : ∀ (n j : ℕ),
    cntArr ((List.range n).map (fun j => ({ time := 0, event_type := EventType.arrival, job_id := j, station_id := i0 } : Event))) j = if j < n then 1 else 0 := by
  intro n
  induction n with
  | zero => intro j; simp [cntArr]
  | succ k ih =>
      intro j
      rw [List.range_succ, List.map_append]
      simp only [List.map_cons, List.map_nil]
      rw [cntArr_append, ih j]
      by_cases hj : j = k
      · subst hj
        simp
      · have h2 : ¬ (EventType.arrival = EventType.arrival ∧ k = j) := fun hh => hj hh.2.symm
        rw [if_neg h2]
        by_cases h3 : j < k
        · rw [if_pos h3, if_pos (Nat.lt_succ_of_lt h3)]
        · rw [if_neg h3, if_neg (by omega)]

theorem cntDep_range_map (i0 n j : ℕ) :
    cntDep ((List.range n).map (fun j => ({ time := 0, event_type := EventType.arrival, job_id := j, station_id := i0 } : Event))) j = 0 := by
  refine List.countP_eq_zero.2 ?_
  intro e he
  obtain ⟨a, _, rfl⟩ := List.mem_map.1 he
  simp

theorem cntDepAt_range_map (i0 n i : ℕ) :
    cntDepAt ((List.range n).map (fun j => ({ time := 0, event_type := EventType.arrival, job_id := j, station_id := i0 } : Event))) i = 0 := by
  refine List.countP_eq_zero.2 ?_
  intro e he
  obtain ⟨a, _, rfl⟩ := List.mem_map.1 he
  simp

theorem simInv_initGen (s : Net) (i0 : ℕ)
    (hns : s.num_stations = s.stations.length)
    (hpos : 0 < s.stations.length)
    (hi0 : i0 < s.stations.length)
    (hct : s.current_time = 0)
    (htr : s.jobs_in_transit = ∅)
    (hev : s.event_queue = (List.range s.num_jobs.toNat).map
      (fun j =>
        ({ time := 0, event_type := EventType.arrival, job_id := j, station_id := i0 } : Event)))
    (hq : ∀ i, (s.getSt i).queue = [])
    (hb : ∀ i, (s.getSt i).servers_busy = 0)
    (hm : ∀ i, 0 ≤ (s.getSt i).mean_service_time) :
    SimInv s := by
  refine { st_len := hns, st_pos := hpos, mean_nonneg := hm, ev_station := ?_, ev_job := ?_,
           q_job := ?_, transit_job := ?_, busy_eq := ?_, token := ?_, transit_arr := ?_,
           fresh_time := ?_, time_ge := ?_ }
  · intro e he
    rw [hev] at he
    obtain ⟨a, _, rfl⟩ := List.mem_map.1 he
    exact hi0
  · intro e he
    rw [hev] at he
    obtain ⟨a, ha, rfl⟩ := List.mem_map.1 he
    exact List.mem_range.1 ha
  · intro i j hj
    rw [hq i] at hj
    exact absurd hj (List.not_mem_nil j)
  · intro j hj
    rw [htr] at hj
    exact absurd hj (Finset.not_mem_empty j)
  · intro i _
    rw [hb i, hev, cntDepAt_range_map]
    rfl
  · intro j hj
    have h1 : cntArr s.event_queue j = 1 := by
      rw [hev, cntArr_range_map]
      exact if_pos hj
    have h2 : cntDep s.event_queue j = 0 := by
      rw [hev]
      exact cntDep_range_map i0 _ j
    have h3 : qCount s j = 0 := by
      refine Finset.sum_eq_zero ?_
      intro i _
      rw [hq i]
      rfl
    rw [h1, h2, h3]
  · intro j hj
    rw [htr] at hj
    exact absurd hj (Finset.not_mem_empty j)
  · intro e he _ _
    rw [hev] at he
    obtain ⟨a, _, rfl⟩ := List.mem_map.1 he
    exact le_refl 0
  · intro e he
    rw [hev] at he
    obtain ⟨a, _, rfl⟩ := List.mem_map.1 he
    rw [hct]

theorem simInv_init (nj : ℤ) (routing : List (List ℚ)) (params : List (ℤ × ℚ)) (i0 : ℕ)
    (hlen : params.length = routing.length) (hpos : 0 < routing.length)
    (hmean : ∀ p ∈ params, 0 ≤ p.2) (hi0 : i0 < params.length) :
    SimInv { (buildNetwork nj routing params).init_jobs i0 with warmup_done := false } := by
  have hlenEq : ({ (buildNetwork nj routing params).init_jobs i0 with
      warmup_done := false } : Net).stations.length = params.length := by
    show (params.foldl (fun s p => s.add_station p.1 p.2)
      (mkNetwork nj routing)).stations.length = params.length
    rw [foldlLen]
    simp [mkNetwork]
  have hstFact : ∀ i < params.length,
      (({ (buildNetwork nj routing params).init_jobs i0 with
        warmup_done := false } : Net).getSt i).queue = [] ∧
      (({ (buildNetwork nj routing params).init_jobs i0 with
        warmup_done := false } : Net).getSt i).servers_busy = 0 ∧
      0 ≤ (({ (buildNetwork nj routing params).init_jobs i0 with
        warmup_done := false } : Net).getSt i).mean_service_time := by
    intro i hi
    have hmem : (params.foldl (fun s p => s.add_station p.1 p.2)
        (mkNetwork nj routing)).stations.getD i dStation ∈
        (params.foldl (fun s p => s.add_station p.1 p.2) (mkNetwork nj routing)).stations := by
      refine getDMem _ _ _ ?_
      show ({ (buildNetwork nj routing params).init_jobs i0 with
        warmup_done := false } : Net).stations.length > i
      rw [hlenEq]
      exact hi
    rcases foldlMem params (mkNetwork nj routing) _ hmem with h | ⟨hq, hb, hp⟩
    · exact absurd h (by simp [mkNetwork])
    · exact ⟨hq, hb, hmean _ hp⟩
  have hdflt : ∀ i, ¬ i < params.length →
      ({ (buildNetwork nj routing params).init_jobs i0 with
        warmup_done := false } : Net).getSt i = dStation := by
    intro i hi
    show ({ (buildNetwork nj routing params).init_jobs i0 with
      warmup_done := false } : Net).stations.getD i dStation = dStation
    refine getDOfLe _ _ _ ?_
    rw [hlenEq]
    omega
  refine simInv_initGen _ i0 ?_ ?_ ?_ ?_ ?_ ?_ ?_ ?_ ?_
  · show (params.foldl (fun s p => s.add_station p.1 p.2) (mkNetwork nj routing)).num_stations =
      ({ (buildNetwork nj routing params).init_jobs i0 with
        warmup_done := false } : Net).stations.length
    rw [foldlNS, hlenEq]
    show routing.length = params.length
    rw [hlen]
  · rw [hlenEq]
    rw [hlen]
    exact hpos
  · rw [hlenEq]
    exact hi0
  · show (params.foldl (fun s p => s.add_station p.1 p.2) (mkNetwork nj routing)).current_time = 0
    rw [foldlCT]
    rfl
  · show (params.foldl (fun s p => s.add_station p.1 p.2) (mkNetwork nj routing)).jobs_in_transit
      = ∅
    rw [foldlTransit]
    rfl
  · have hnj2 : ({ (buildNetwork nj routing params).init_jobs i0 with
        warmup_done := false } : Net).num_jobs = nj := by
      show (params.foldl (fun s p => s.add_station p.1 p.2) (mkNetwork nj routing)).num_jobs = nj
      rw [foldlNJ]
      rfl
    rw [hnj2]
    show (params.foldl (fun s p => s.add_station p.1 p.2) (mkNetwork nj routing)).event_queue ++
      (List.range (params.foldl (fun s p => s.add_station p.1 p.2)
        (mkNetwork nj routing)).num_jobs.toNat).map
        (fun j =>
          ({ time := 0, event_type := EventType.arrival, job_id := j, station_id := i0 } : Event))
      = _
    rw [foldlEQ, foldlNJ]
    rfl
  · intro i
    by_cases hi : i < params.length
    · exact (hstFact i hi).1
    · rw [hdflt i hi]
      rfl
  · intro i
    by_cases hi : i < params.length
    · exact (hstFact i hi).2.1
    · rw [hdflt i hi]
      rfl
  · intro i
    by_cases hi : i < params.length
    · exact (hstFact i hi).2.2
    · rw [hdflt i hi]
      exact le_refl 0

/-- Pending departures counted by station sum to the total count of pending
departure events, provided every departure's station index is in range. -/
theorem sum_cntDepAt (n : ℕ) : ∀ (q : List Event),
    (∀ e ∈ q, e.event_type = EventType.departure → e.station_id < n) →
    ∑ i in Finset.range n, cntDepAt q i =
      q.countP (fun e => decide (e.event_type = EventType.departure)) := by
  intro q
  induction q with
  | nil =>
      intro _
      simp [cntDepAt]
  | cons e q ih =>
      intro h
      have hq := ih (fun e' he' => h e' (List.mem_cons_of_mem _ he'))
      rw [List.countP_cons,
          Finset.sum_congr rfl (fun i _ => cntDepAt_cons q e i),
          Finset.sum_add_distrib, hq]
      congr 1
      by_cases hd : e.event_type = EventType.departure
      · have hs : e.station_id < n := h e (List.mem_cons_self _ _) hd
        have hrw : ∀ i, (if e.event_type = EventType.departure ∧ e.station_id = i
            then (1 : ℕ) else 0) = if e.station_id = i then 1 else 0 := by
          intro i
          by_cases hi : e.station_id = i
          · rw [if_pos ⟨hd, hi⟩, if_pos hi]
          · rw [if_neg (fun hh => hi hh.2), if_neg hi]
        rw [Finset.sum_congr rfl (fun i _ => hrw i), Finset.sum_ite_eq,
            if_pos (Finset.mem_range.2 hs)]
        simp [hd]
      · have hrw : ∀ i, (if e.event_type = EventType.departure ∧ e.station_id = i
            then (1 : ℕ) else 0) = 0 := by
          intro i
          rw [if_neg (fun hh => hd hh.1)]
        rw [Finset.sum_congr rfl (fun i _ => hrw i)]
        simp [hd]

/-- Pending departures counted by job sum to the total count of pending
departure events, provided every departure's job id is in range. -/
theorem sum_cntDep (n : ℕ) : ∀ (q : List Event),
    (∀ e ∈ q, e.event_type = EventType.departure → e.job_id < n) →
    ∑ j in Finset.range n, cntDep q j =
      q.countP (fun e => decide (e.event_type = EventType.departure)) := by
  intro q
  induction q with
  | nil =>
      intro _
      simp [cntDep]
  | cons e q ih =>
      intro h
      have hq := ih (fun e' he' => h e' (List.mem_cons_of_mem _ he'))
      rw [List.countP_cons,
          Finset.sum_congr rfl (fun j _ => cntDep_cons q e j),
          Finset.sum_add_distrib, hq]
      congr 1
      by_cases hd : e.event_type = EventType.departure
      · have hs : e.job_id < n := h e (List.mem_cons_self _ _) hd
        have hrw : ∀ j, (if e.event_type = EventType.departure ∧ e.job_id = j
            then (1 : ℕ) else 0) = if e.job_id = j then 1 else 0 := by
          intro j
          by_cases hi : e.job_id = j
          · rw [if_pos ⟨hd, hi⟩, if_pos hi]
          · rw [if_neg (fun hh => hi hh.2), if_neg hi]
        rw [Finset.sum_congr rfl (fun j _ => hrw j), Finset.sum_ite_eq,
            if_pos (Finset.mem_range.2 hs)]
        simp [hd]
      · have hrw : ∀ j, (if e.event_type = EventType.departure ∧ e.job_id = j
            then (1 : ℕ) else 0) = 0 := by
          intro j
          rw [if_neg (fun hh => hd hh.1)]
        rw [Finset.sum_congr rfl (fun j _ => hrw j)]
        simp [hd]

/-- Occurrence counts over all in-range values sum to the list length. -/
theorem sum_count_length (n : ℕ) : ∀ (l : List ℕ), (∀ x ∈ l, x < n) →
    ∑ j in Finset.range n, l.count j = l.length := by
  intro l
  induction l with
  | nil =>
      intro _
      simp
  | cons a l ih =>
      intro h
      have ha : a < n := h a (List.mem_cons_self _ _)
      have hl := ih (fun x hx => h x (List.mem_cons_of_mem _ hx))
      have hrw : ∀ j, (a :: l).count j = l.count j + if j = a then 1 else 0 := by
        intro j
        rw [List.count_cons]
        by_cases hj : j = a
        · subst hj
          simp
        · simp [hj, Ne.symm hj]
      rw [Finset.sum_congr rfl (fun j _ => hrw j), Finset.sum_add_distrib, hl,
          Finset.sum_ite_eq', if_pos (Finset.mem_range.2 ha), List.length_cons]

/-- Queue occupancy counted by job sums to the total queue length, provided
all queued job ids are in range. -/
theorem sum_qCount (s : Net) (n : ℕ)
    (h : ∀ i, ∀ j ∈ (s.getSt i).queue, j < n) :
    ∑ j in Finset.range n, qCount s j =
      ∑ i in Finset.range s.stations.length, ((s.getSt i).queue.length : ℤ) := by
  unfold qCount
  rw [Finset.sum_comm]
  have hcast : ∀ i ∈ Finset.range s.stations.length,
      ((s.getSt i).queue.length : ℤ) = ((s.getSt i).queue.length : ℕ) := by
    intro i _
    rfl
  push_cast
  congr 1
  funext i
  exact_mod_cast congrArg (Nat.cast : ℕ → ℤ) (sum_count_length n _ (h i))

/-- A finset of in-range naturals has cardinality the sum of its indicator. -/
theorem card_indicator (t : Finset ℕ) (n : ℕ) (h : ∀ j ∈ t, j < n) :
    ∑ j in Finset.range n, (if j ∈ t then (1 : ℕ) else 0) = t.card := by
  rw [Finset.sum_ite_mem, Finset.inter_eq_right.2 (fun j hj => Finset.mem_range.2 (h j hj))]
  exact Finset.card_eq_sum_ones t ▸ rfl

/-- In a reachable state with no pending arrival event for any job outside
jobs_in_transit, the work in process equals the job population. -/
theorem wip_eq_num_jobs (s : Net) (inv : SimInv s)
    (hfresh : ∀ e ∈ s.event_queue, e.event_type = EventType.arrival →
      e.job_id ∈ s.jobs_in_transit) :
    wip s = (s.num_jobs.toNat : ℤ) := by
  have harr : ∀ j ∈ Finset.range s.num_jobs.toNat,
      cntArr s.event_queue j = if j ∈ s.jobs_in_transit then 1 else 0 := by
    intro j _
    by_cases hj : j ∈ s.jobs_in_transit
    · rw [if_pos hj]
      exact inv.transit_arr j hj
    · rw [if_neg hj]
      by_contra hne
      have hpos : 0 < cntArr s.event_queue j := Nat.pos_of_ne_zero hne
      unfold cntArr at hpos
      rw [List.countP_pos_iff] at hpos
      obtain ⟨e, he, hp⟩ := hpos
      have hp' : e.event_type = EventType.arrival ∧ e.job_id = j := of_decide_eq_true hp
      exact hj (hp'.2 ▸ hfresh e he hp'.1)
  have htok : ∑ j in Finset.range s.num_jobs.toNat,
      (cntArr s.event_queue j + cntDep s.event_queue j + qCount s j) = s.num_jobs.toNat := by
    rw [Finset.sum_congr rfl (fun j hj => inv.token j (Finset.mem_range.1 hj))]
    simp
  rw [Finset.sum_add_distrib, Finset.sum_add_distrib] at htok
  rw [Finset.sum_congr rfl harr, card_indicator s.jobs_in_transit _ inv.transit_job] at htok
  have hdepJ : ∑ j in Finset.range s.num_jobs.toNat, cntDep s.event_queue j =
      s.event_queue.countP (fun e => decide (e.event_type = EventType.departure)) :=
    sum_cntDep _ _ (fun e he _ => inv.ev_job e he)
  have hdepI : ∑ i in Finset.range s.stations.length, cntDepAt s.event_queue i =
      s.event_queue.countP (fun e => decide (e.event_type = EventType.departure)) :=
    sum_cntDepAt _ _ (fun e he _ => inv.ev_station e he)
  have hqc : ∑ j in Finset.range s.num_jobs.toNat, qCount s j =
      ∑ i in Finset.range s.stations.length, ((s.getSt i).queue.length : ℤ) :=
    sum_qCount s _ inv.q_job
  have hbusy : ∑ i in Finset.range s.stations.length, (s.getSt i).servers_busy =
      ∑ i in Finset.range s.stations.length, (cntDepAt s.event_queue i : ℤ) :=
    Finset.sum_congr rfl (fun i hi => inv.busy_eq i (Finset.mem_range.1 hi))
  unfold wip
  rw [Finset.sum_add_distrib, hbusy]
  have hz : (∑ i in Finset.range s.stations.length, (cntDepAt s.event_queue i : ℤ)) =
      ((∑ i in Finset.range s.stations.length, cntDepAt s.event_queue i : ℕ) : ℤ) := by
    push_cast
    rfl
  rw [hz, hdepI]
  rw [hdepJ] at htok
  omega

theorem nj_dispatch (m : Net) (svc : ℕ → ℚ) (rt : ℕ → ℕ) (e : Event) :
    (m.dispatch svc rt e).num_jobs = m.num_jobs := by
  unfold Net.dispatch
  cases he : e.event_type with
  | arrival =>
      rcases process_arrival_cases m svc e with hc | ⟨hd, r', _, _, hc⟩ <;> rw [hc] <;> rfl
  | departure =>
      rcases process_departure_cases m svc rt e with ⟨_, hc⟩ | ⟨hd, r', _, _, hc⟩ <;>
        rw [hc] <;> rfl

theorem nj_stepPopped (svc : ℕ → ℚ) (rt : ℕ → ℕ) (warmup : ℚ) (s : Net)
    (e : Event) (rest : List Event) :
    (stepPopped svc rt warmup s e rest).num_jobs = s.num_jobs := by
  unfold stepPopped
  dsimp only
  split
  · rw [nj_dispatch]
    rfl
  · rw [nj_dispatch]

theorem nj_runAux (svc : ℕ → ℚ) (rt : ℕ → ℕ) (horizon warmup : ℚ) :
    ∀ (n : ℕ) (s : Net), (runAux svc rt horizon warmup n s).1.num_jobs = s.num_jobs := by
  intro n
  induction n with
  | zero => exact fun s => rfl
  | succ k ih =>
      intro s
      unfold runAux
      split
      · split
        · rfl
        · rename_i e rest heq
          dsimp only
          rw [ih (stepPopped svc rt warmup s e rest), nj_stepPopped]
      · rfl

/-- C1: WIP conservation at run end.  For a run of a freshly built and
initialized network (nonnegative population, means and service draws,
positive horizon, a station per routing row, valid initial station), if the
run has actually ended - the event queue is exhausted or the clock has
reached the horizon - then the sum over stations of servers_busy plus queue
length, plus the number of jobs in transit, equals num_jobs. -/
theorem C1_wip_conservation (nj : ℤ) (routing : List (List ℚ)) (params : List (ℤ × ℚ))
    (i0 : ℕ) (svc : ℕ → ℚ) (rt : ℕ → ℕ) (horizon warmup : ℚ) (fuel : ℕ)
    (hlen : params.length = routing.length) (hpos : 0 < routing.length)
    (hmean : ∀ p ∈ params, 0 ≤ p.2) (hi0 : i0 < params.length)
    (hsvc : ∀ k, 0 ≤ svc k) (hnj : 0 ≤ nj) (hhor : 0 < horizon)
    (hstop : (((buildNetwork nj routing params).init_jobs i0).run svc rt horizon warmup
        fuel).1.event_queue = [] ∨
      horizon ≤ (((buildNetwork nj routing params).init_jobs i0).run svc rt horizon warmup
        fuel).1.current_time) :
    wip (((buildNetwork nj routing params).init_jobs i0).run svc rt horizon warmup fuel).1
      = nj := by
  have h0 := simInv_init nj routing params i0 hlen hpos hmean hi0
  have hFinv : SimInv (((buildNetwork nj routing params).init_jobs i0).run svc rt horizon
      warmup fuel).1 :=
    (simInv_runAux svc rt horizon warmup hsvc fuel _ h0).1
  have hnjF : (((buildNetwork nj routing params).init_jobs i0).run svc rt horizon warmup
      fuel).1.num_jobs = nj := by
    show (runAux svc rt horizon warmup fuel { (buildNetwork nj routing params).init_jobs i0 with
      warmup_done := false }).1.num_jobs = nj
    rw [nj_runAux]
    show (params.foldl (fun s p => s.add_station p.1 p.2) (mkNetwork nj routing)).num_jobs = nj
    rw [foldlNJ]
    rfl
  have hfresh : ∀ e ∈ (((buildNetwork nj routing params).init_jobs i0).run svc rt horizon
      warmup fuel).1.event_queue, e.event_type = EventType.arrival →
      e.job_id ∈ (((buildNetwork nj routing params).init_jobs i0).run svc rt horizon warmup
        fuel).1.jobs_in_transit := by
    intro e he harr
    by_contra hnot
    have h1 := hFinv.fresh_time e he harr hnot
    have h2 := hFinv.time_ge e he
    rcases hstop with hq | hh
    · rw [hq] at he
      exact absurd he (List.not_mem_nil e)
    · linarith
  have hw := wip_eq_num_jobs _ hFinv hfresh
  rw [hw, hnjF]
  exact Int.toNat_of_nonneg hnj

/-- C1 witness: the demo two-station cycle with one job, horizon 3: the run
ends at the horizon with exactly the one job in process. -/
theorem C1_wip_conservation_witness :
    wip (((buildNetwork 1 demoRouting demoParams).init_jobs 0).run svcOne rtOne 3 1 10).1
      = 1 :=
  C1_wip_conservation 1 demoRouting demoParams 0 svcOne rtOne 3 1 10
    (by decide) (by decide) (by with_unfolding_all decide) (by decide)
    (fun _ => (zero_le_one : (0 : ℚ) ≤ 1)) (by decide) (by with_unfolding_all decide)
    (by with_unfolding_all decide)

/-- C8: throughout a run of a freshly built and initialized network, after
every number of processed events no pending event in the queue lies before
the current clock (so no operation ever scheduled an event in the past of
the clock it was scheduled at), and the clock is monotonically
non-decreasing from each processed event to the next. -/
theorem C8_no_past_events (nj : ℤ) (routing : List (List ℚ)) (params : List (ℤ × ℚ))
    (i0 : ℕ) (svc : ℕ → ℚ) (rt : ℕ → ℕ) (horizon warmup : ℚ)
    (hlen : params.length = routing.length) (hpos : 0 < routing.length)
    (hmean : ∀ p ∈ params, 0 ≤ p.2) (hi0 : i0 < params.length)
    (hsvc : ∀ k, 0 ≤ svc k) :
    (∀ n : ℕ, ∀ e ∈ (((buildNetwork nj routing params).init_jobs i0).run svc rt horizon
        warmup n).1.event_queue,
      (((buildNetwork nj routing params).init_jobs i0).run svc rt horizon
        warmup n).1.current_time ≤ e.time) ∧
    (∀ n : ℕ, (((buildNetwork nj routing params).init_jobs i0).run svc rt horizon
        warmup n).1.current_time ≤
      (((buildNetwork nj routing params).init_jobs i0).run svc rt horizon
        warmup (n + 1)).1.current_time) := by
  have h0 := simInv_init nj routing params i0 hlen hpos hmean hi0
  constructor
  · intro n
    exact (simInv_runAux svc rt horizon warmup hsvc n _ h0).1.time_ge
  · intro n
    have hinv : SimInv (runAux svc rt horizon warmup n
        { (buildNetwork nj routing params).init_jobs i0 with warmup_done := false }).1 :=
      (simInv_runAux svc rt horizon warmup hsvc n _ h0).1
    show (runAux svc rt horizon warmup n { (buildNetwork nj routing params).init_jobs i0 with
        warmup_done := false }).1.current_time ≤
      (runAux svc rt horizon warmup (n + 1)
        { (buildNetwork nj routing params).init_jobs i0 with
          warmup_done := false }).1.current_time
    rw [runAux_succ_fst]
    exact clock_loopStep svc rt horizon warmup _ hinv

/-- C8 witness: in the demo run, the clock after eleven loop iterations is
at least the clock after ten. -/
theorem C8_no_past_events_witness :
    (((buildNetwork 1 demoRouting demoParams).init_jobs 0).run svcOne rtOne 3
        1 10).1.current_time ≤
      (((buildNetwork 1 demoRouting demoParams).init_jobs 0).run svcOne rtOne 3
        1 11).1.current_time :=
  (C8_no_past_events 1 demoRouting demoParams 0 svcOne rtOne 3 1
    (by decide) (by decide) (by with_unfolding_all decide) (by decide)
    (fun _ => (zero_le_one : (0 : ℚ) ≤ 1))).2 10
